import Mathlib

/-!
Tetris3D: the game simulation core of `src/main.cpp`

A shallow embedding of the gameplay functions of `src/main.cpp`
(`spawnPiece`, `checkCollision`, `mergePiece`, `applyMaterialToCurrentPiece`,
the gravity branch of the main loop and `key_callback`) followed by theorems
about them.

Modelling conventions.

* The program stores coordinates as `float`.  Here a coordinate is a rational
  number and arithmetic on coordinates is exact.  `round` is the C library
  function: nearest integer, halves away from zero (`cround`).  In `float`,
  adding or subtracting 1 is exact on the values up to `FLOAT_EXACT = 2^24`
  only.  In the states the program reaches all coordinates are small integers;
  a theorem that fixes the outcome of such arithmetic in other states says in
  its hypotheses in which range of coordinates it speaks (`HeightsExact`,
  `ROTATE_RANGE`, `DROP_RANGE`).
* `glm::rotateY (v, radians (±90))` is taken with the values the `float`
  functions return: `cos = COS_QUARTER`, about `-4.37e-8`, and `sin = ±1`.
  The program rounds the rotated offset immediately afterwards.
* The global variables become the fields of `State`.  Rendering state, the
  camera, the window and the fall timer are not part of the model; the gravity
  branch of the main loop is modelled at a moment when the timer has expired.
* `rand ()` is an input: every function that spawns a piece takes the value
  `r` returned by `rand ()`.
* `score` is a 32-bit `int`: additions to it wrap around (`wrapInt`).
* The two unbounded loops (the layer loop of `mergePiece`, whose index is
  decremented after a clear, and the `while` loop of the hard drop) take a
  fuel argument and return `none` when it runs out.
-/

namespace Tetris3D

/-! ## Constants -/

def GRID_W : Int := 10
def GRID_H : Int := 20
def GRID_D : Int := 10
def GAME_OVER_HEIGHT : Int := 14

/-! ## Machine numbers -/

def INT_MIN : Int := -2147483648
def INT_MAX : Int := 2147483647

/-- The value a 32-bit `int` holds after a computation whose exact result is `x`. -/
def wrapInt (x : Int) : Int := (x + 2147483648) % 4294967296 - 2147483648

/-- Up to the magnitude `2^24` every integer is a `float`, and adding or
subtracting 1 is exact. -/
def FLOAT_EXACT : ℚ := 16777216

/-- The `float` that `cos (radians (90.0f))` and `cos (radians (-90.0f))`
return (bit pattern `0xb33bbd2e`): not 0, but about `-4.37e-8`. -/
def COS_QUARTER : ℚ := -6151831 / 140737488355328

/-! ## Vectors, cubes, materials -/

structure Vec3 where
  x : ℚ
  y : ℚ
  z : ℚ
deriving DecidableEq

namespace Vec3

def add (a b : Vec3) : Vec3 := ⟨a.x + b.x, a.y + b.y, a.z + b.z⟩

def sub (a b : Vec3) : Vec3 := ⟨a.x - b.x, a.y - b.y, a.z - b.z⟩

end Vec3

/-- The C function `round`: nearest integer, halfway cases away from zero. -/
def cround (q : ℚ) : Int :=
  if 0 ≤ q then ⌊q + 1 / 2⌋ else -⌊-q + 1 / 2⌋

/-- Component-wise `round` of a vector (`glm::round`). -/
def roundVec (v : Vec3) : Vec3 := ⟨(cround v.x : ℚ), (cround v.y : ℚ), (cround v.z : ℚ)⟩

structure Cube where
  pos : Vec3
  albedo : Vec3
  metallic : ℚ
  roughness : ℚ
deriving DecidableEq

structure PBRMaterial where
  name : String
  albedo : Vec3
  metallic : ℚ
  roughness : ℚ
deriving DecidableEq

def materials : List PBRMaterial :=
  [ ⟨"Plastic", ⟨8 / 10, 1 / 10, 1 / 10⟩, 0, 5 / 10⟩,
    ⟨"Gold", ⟨1, 71 / 100, 29 / 100⟩, 1, 2 / 10⟩,
    ⟨"Jade", ⟨54 / 100, 89 / 100, 63 / 100⟩, 1 / 10, 1 / 10⟩,
    ⟨"Copper", ⟨95 / 100, 64 / 100, 54 / 100⟩, 1, 35 / 100⟩,
    ⟨"Rubber", ⟨1 / 10, 1 / 10, 1 / 10⟩, 0, 9 / 10⟩ ]

def TETROMINOES : List (List Vec3) :=
  [ [⟨0, 0, 0⟩, ⟨1, 0, 0⟩, ⟨-1, 0, 0⟩, ⟨-2, 0, 0⟩],
    [⟨0, 0, 0⟩, ⟨-1, 0, 0⟩, ⟨1, 0, 0⟩, ⟨1, -1, 0⟩],
    [⟨0, 0, 0⟩, ⟨-1, 0, 0⟩, ⟨1, 0, 0⟩, ⟨-1, -1, 0⟩],
    [⟨0, 0, 0⟩, ⟨1, 0, 0⟩, ⟨-1, 0, 0⟩, ⟨0, -1, 0⟩],
    [⟨0, 0, 0⟩, ⟨0, -1, 0⟩, ⟨-1, -1, 0⟩, ⟨1, 0, 0⟩],
    [⟨0, 0, 0⟩, ⟨0, -1, 0⟩, ⟨1, -1, 0⟩, ⟨-1, 0, 0⟩],
    [⟨0, 0, 0⟩, ⟨1, 0, 0⟩, ⟨0, -1, 0⟩, ⟨1, -1, 0⟩] ]

/-! ## Game state -/

structure State where
  grid : List Cube
  currentPiece : List Cube
  pieceCenter : Vec3
  paused : Bool
  gameOver : Bool
  score : Int
  currentMaterialIndex : Nat
deriving DecidableEq

/-- The globals as initialised at program start, before `main` spawns. -/
def initialGlobals : State :=
  { grid := [], currentPiece := [], pieceCenter := ⟨0, 0, 0⟩, paused := false,
    gameOver := false, score := 0, currentMaterialIndex := 0 }

/-! ## `checkCollision` -/

/-- The inner loop of `checkCollision`: does a landed cube round to the same cell? -/
def hitsLanded (grid : List Cube) (nextPos : Vec3) : Bool :=
  grid.any fun landedCube =>
    cround nextPos.x == cround landedCube.pos.x &&
    cround nextPos.y == cround landedCube.pos.y &&
    cround nextPos.z == cround landedCube.pos.z

/-- The wall and floor test of `checkCollision` for one cube. -/
def outOfField (nextPos : Vec3) : Bool :=
  decide (nextPos.x < 0) || decide (cround nextPos.x ≥ GRID_W) ||
  decide (nextPos.z < 0) || decide (cround nextPos.z ≥ GRID_D) ||
  decide (nextPos.y < 0)

/-- `checkCollision (moveDir, piece)`, reading the global `grid`. -/
def checkCollision (grid : List Cube) (moveDir : Vec3) : List Cube → Bool
  | [] => false
  | cube :: rest =>
    let nextPos := cube.pos.add moveDir
    if outOfField nextPos then true
    else if hitsLanded grid nextPos then true
    else checkCollision grid moveDir rest

/-! ## `spawnPiece` and `applyMaterialToCurrentPiece` -/

def spawnCenter : Vec3 := ⟨((⌊(GRID_W : ℚ) / 2⌋ : Int) : ℚ), ((GRID_H - 2 : Int) : ℚ), ((⌊(GRID_D : ℚ) / 2⌋ : Int) : ℚ)⟩

def currentMaterial (idx : Nat) : PBRMaterial :=
  materials.getD idx ⟨"", ⟨0, 0, 0⟩, 0, 0⟩

/-- The `push_back` loop of `spawnPiece`: one cube per offset of the shape. -/
def spawnCubes (pieceCenter : Vec3) (pieceType : Nat) (m : PBRMaterial) : List Cube :=
  (TETROMINOES.getD pieceType []).map fun offset =>
    { pos := pieceCenter.add offset, albedo := m.albedo, metallic := m.metallic,
      roughness := m.roughness }

/-- `spawnPiece ()`, where `r` is the value returned by `rand ()`. -/
def spawnPiece (r : Nat) (s : State) : State :=
  let pieceCenter := spawnCenter
  let pieceType := r % TETROMINOES.length
  let piece := spawnCubes pieceCenter pieceType (currentMaterial s.currentMaterialIndex)
  let s1 := { s with currentPiece := piece, pieceCenter := pieceCenter }
  if checkCollision s1.grid ⟨0, 0, 0⟩ s1.currentPiece then { s1 with gameOver := true } else s1

def applyMaterialToCurrentPiece (s : State) : State :=
  let newMaterial := currentMaterial s.currentMaterialIndex
  { s with currentPiece := s.currentPiece.map fun cube =>
      { cube with albedo := newMaterial.albedo, metallic := newMaterial.metallic,
                  roughness := newMaterial.roughness } }

/-! ## `mergePiece` -/

/-- The number of landed cubes whose rounded height is `y` (`cubeCount`). -/
def cubeCount (grid : List Cube) (y : Int) : Nat :=
  grid.countP fun c => cround c.pos.y == y

/-- The `erase (remove_if ...)` line: drop the cubes of layer `y`. -/
def eraseLayer (grid : List Cube) (y : Int) : List Cube :=
  grid.filter fun c => !(cround c.pos.y == y)

/-- Lower one cube by one unit when its rounded height is above `y`
(`c.pos.y -= 1.0f`; the exact difference is what `float` computes for a height
of at most `FLOAT_EXACT`). -/
def lowerCube (y : Int) (c : Cube) : Cube :=
  if cround c.pos.y > y then { c with pos := { c.pos with y := c.pos.y - 1 } } else c

/-- The loop after the erase: lower every cube above layer `y`. -/
def shiftDown (grid : List Cube) (y : Int) : List Cube :=
  grid.map (lowerCube y)

/-- The result of the layer loop: the grid, the score, and (an observer that
the program does not keep) the number of layers that were cleared. -/
structure ClearResult where
  grid : List Cube
  score : Int
  cleared : Nat
deriving DecidableEq

/-- The layer loop of `mergePiece`, `for (int y = 0; y < GRID_H; ++y)`.  After
a clear the program executes `y--` and then the `++y` of the loop header, so
the next iteration looks at the same `y`. -/
def clearLoop : Nat → Int → ClearResult → Option ClearResult
  | 0, _, _ => none
  | fuel + 1, y, st =>
    if y < GRID_H then
      if (cubeCount st.grid y : Int) ≥ GRID_W * GRID_D then
        clearLoop fuel (y - 1 + 1)
          { grid := shiftDown (eraseLayer st.grid y) y, score := wrapInt (st.score + 100),
            cleared := st.cleared + 1 }
      else clearLoop fuel (y + 1) st
    else some st

/-- The line-clear pass: the layer loop started at `y = 0`. -/
def clearLines (fuel : Nat) (grid : List Cube) (score : Int) : Option ClearResult :=
  clearLoop fuel 0 { grid := grid, score := score, cleared := 0 }

/-- The first loop of `mergePiece`: append each cube of the piece to the grid and
raise `gameOver` when a cube is at or above `GAME_OVER_HEIGHT`. -/
def lockCubes : List Cube → List Cube → Bool → List Cube × Bool
  | [], grid, gameOver => (grid, gameOver)
  | pieceCube :: rest, grid, gameOver =>
    lockCubes rest (grid ++ [pieceCube])
      (if pieceCube.pos.y ≥ (GAME_OVER_HEIGHT : ℚ) then true else gameOver)

/-- `mergePiece ()`. -/
def mergePiece (fuel : Nat) (s : State) : Option State :=
  let locked := lockCubes s.currentPiece s.grid s.gameOver
  let s1 := { s with grid := locked.1, gameOver := locked.2 }
  if s1.gameOver then some s1
  else
    match clearLines fuel s1.grid (wrapInt (s1.score + 10)) with
    | none => none
    | some res => some { s1 with grid := res.grid, score := res.score }

/-! ## The gravity branch of the main loop -/

def down : Vec3 := ⟨0, -1, 0⟩

/-- Move every cube of the piece one unit down (`b.pos.y -= 1.0f`; the exact
difference is what `float` computes for a height of at most `FLOAT_EXACT`). -/
def lowerPiece (piece : List Cube) : List Cube :=
  piece.map fun b => { b with pos := { b.pos with y := b.pos.y - 1 } }

/-- Move the pivot one unit down (`pieceCenter.y -= 1.0f`; exact in `float` for an
integer height of magnitude below `FLOAT_EXACT`). -/
def lowerCenter (c : Vec3) : Vec3 := { c with y := c.y - 1 }

/-- One iteration of the main loop whose fall timer has expired. -/
def tick (fuel : Nat) (r : Nat) (s : State) : Option State :=
  if !s.paused && !s.gameOver then
    if checkCollision s.grid down s.currentPiece then
      match mergePiece fuel s with
      | none => none
      | some s1 => if !s1.gameOver then some (spawnPiece r s1) else some s1
    else
      some { s with currentPiece := lowerPiece s.currentPiece,
                    pieceCenter := lowerCenter s.pieceCenter }
  else some s

/-! ## `key_callback` -/

inductive Key where
  | ESCAPE | R | P | J | L | M
  | A | LEFT | D | RIGHT | W | UP | S | DOWN
  | SPACE | ENTER | Q | E | OTHER
deriving DecidableEq

inductive Action where
  | RELEASE | PRESS | REPEAT
deriving DecidableEq

/-- The `moveDir` computed from the key. -/
def moveDirOf (key : Key) : Vec3 :=
  let m0 : Vec3 := ⟨0, 0, 0⟩
  let m1 := if key = Key.A ∨ key = Key.LEFT then { m0 with x := -1 } else m0
  let m2 := if key = Key.D ∨ key = Key.RIGHT then { m1 with x := 1 } else m1
  let m3 := if key = Key.W ∨ key = Key.UP then { m2 with z := -1 } else m2
  let m4 := if key = Key.S ∨ key = Key.DOWN then { m3 with z := 1 } else m3
  if key = Key.SPACE then { m4 with y := -1 } else m4

/-- The test `length (moveDir) > 0`, on the square of the length. -/
def nonZero (v : Vec3) : Bool := decide (v.x * v.x + v.y * v.y + v.z * v.z > 0)

def translatePiece (piece : List Cube) (d : Vec3) : List Cube :=
  piece.map fun b => { b with pos := b.pos.add d }

/-- The `while` loop of the hard drop. -/
def hardDropLoop (grid : List Cube) : Nat → List Cube → Vec3 → Option (List Cube × Vec3)
  | 0, _, _ => none
  | fuel + 1, piece, center =>
    if !checkCollision grid down piece then
      hardDropLoop grid fuel (lowerPiece piece) (lowerCenter center)
    else some (piece, center)

/-- The quarter turn `glm::rotateY (v, radians (angle))` for `angle = 90 * sgn`, `sgn = 1`
or `-1`: the formula of `glm::rotateY` with the `float` values `cos (angle) = COS_QUARTER`
and `sin (angle) = sgn`. -/
def rotateY (v : Vec3) (sgn : ℚ) : Vec3 :=
  let Cos : ℚ := COS_QUARTER
  let Sin : ℚ := sgn
  ⟨v.x * Cos + v.z * Sin, v.y, -v.x * Sin + v.z * Cos⟩

/-- The rotated copy of the piece built by the Q/E branch. -/
def rotatePiece (sgn : ℚ) (pieceCenter : Vec3) (piece : List Cube) : List Cube :=
  piece.map fun cube =>
    let offset := cube.pos.sub pieceCenter
    let rotatedOffset := rotateY offset sgn
    { cube with pos := pieceCenter.add (roundVec rotatedOffset) }

/-- The move block: `if (length (moveDir) > 0.0f && !checkCollision (moveDir, currentPiece))`. -/
def moveBlock (key : Key) (s : State) : State :=
  let moveDir := moveDirOf key
  if nonZero moveDir && !checkCollision s.grid moveDir s.currentPiece then
    { s with currentPiece := translatePiece s.currentPiece moveDir,
             pieceCenter := s.pieceCenter.add moveDir }
  else s

/-- The hard-drop block: `if (key == GLFW_KEY_ENTER)`. -/
def hardDropBlock (fuel : Nat) (key : Key) (r : Nat) (s : State) : Option State :=
  if key = Key.ENTER then
    match hardDropLoop s.grid fuel s.currentPiece s.pieceCenter with
    | none => none
    | some (piece, center) =>
      match mergePiece fuel { s with currentPiece := piece, pieceCenter := center } with
      | none => none
      | some s3 => if !s3.gameOver then some (spawnPiece r s3) else some s3
  else some s

/-- The rotation block: `if (action == GLFW_PRESS && (key == GLFW_KEY_Q || key == GLFW_KEY_E))`.
Here `angle` counts quarter turns: `1` for `90.0f` (key E) and `-1` for `-90.0f` (key Q). -/
def rotateBlock (key : Key) (action : Action) (s : State) : State :=
  if action = Action.PRESS ∧ (key = Key.Q ∨ key = Key.E) then
    let angle : Int := if key = Key.E then 1 else -1
    let rotatedPiece := rotatePiece (angle : ℚ) s.pieceCenter s.currentPiece
    if !checkCollision s.grid ⟨0, 0, 0⟩ rotatedPiece then { s with currentPiece := rotatedPiece }
    else s
  else s

/-- The part of `key_callback` after `if (paused || gameOver) return;`: the move
block, the hard-drop block and the rotation block, in this order. -/
def keyPlaying (fuel : Nat) (key : Key) (action : Action) (r : Nat) (s : State) :
    Option State :=
  (hardDropBlock fuel key r (moveBlock key s)).map (rotateBlock key action)

/-- The reset block: `if (key == GLFW_KEY_R && action == GLFW_PRESS)`. -/
def resetBlock (key : Key) (action : Action) (r : Nat) (s : State) : State :=
  if key = Key.R ∧ action = Action.PRESS then
    spawnPiece r { s with grid := [], score := 0, gameOver := false, paused := false }
  else s

/-- The pause line: `if (key == GLFW_KEY_P && action == GLFW_PRESS) paused = !paused;`. -/
def pauseBlock (key : Key) (action : Action) (s : State) : State :=
  if key = Key.P ∧ action = Action.PRESS then { s with paused := !s.paused } else s

/-- The material block: `if (key == GLFW_KEY_M && action == GLFW_PRESS)`. -/
def materialBlock (key : Key) (action : Action) (s : State) : State :=
  if key = Key.M ∧ action = Action.PRESS then
    let s1 := { s with currentMaterialIndex := (s.currentMaterialIndex + 1) % materials.length }
    if !s1.gameOver && !s1.paused then applyMaterialToCurrentPiece s1 else s1
  else s

/-- `key_callback (window, key, scancode, action, mods)`; `r` is the value
`rand ()` returns if the callback spawns a piece.  The Escape key only raises
the close flag of the window and the keys J and L only turn the camera: they
change nothing in `State`. -/
def key_callback (fuel : Nat) (key : Key) (action : Action) (r : Nat) (s : State) :
    Option State :=
  if action = Action.RELEASE then some s
  else
    let s3 := materialBlock key action (pauseBlock key action (resetBlock key action r s))
    if s3.paused || s3.gameOver then some s3
    else keyPlaying fuel key action r s3

/-- The state in which `main` enters its loop: the globals after `spawnPiece ()`. -/
def initState (r : Nat) : State := spawnPiece r initialGlobals

/-! ## Specification vocabulary -/

/-- The lattice cell a position rounds to. -/
def cellOf (p : Vec3) : Int × Int × Int := (cround p.x, cround p.y, cround p.z)

/-- The lattice cell a cube rounds to. -/
def cell (c : Cube) : Int × Int × Int := cellOf c.pos

/-- No two cubes of the list round to the same cell. -/
def NoOverlap (g : List Cube) : Prop := (g.map cell).Nodup

/-- The cube lies inside the `GRID_W` by `GRID_D` footprint of the field. -/
def InField (c : Cube) : Prop :=
  0 ≤ cround c.pos.x ∧ cround c.pos.x < GRID_W ∧ 0 ≤ cround c.pos.z ∧ cround c.pos.z < GRID_D

/-- The placement of one cube is outside `[0,W) x [0,inf) x [0,D)` after rounding. -/
def RoundsOutside (p : Vec3) : Prop :=
  cround p.x < 0 ∨ cround p.x ≥ GRID_W ∨ cround p.z < 0 ∨ cround p.z ≥ GRID_D ∨ cround p.y < 0

/-- A cube at the given position, with the first material of the palette. -/
def plainCube (x y z : ℚ) : Cube :=
  { pos := ⟨x, y, z⟩, albedo := ⟨8 / 10, 1 / 10, 1 / 10⟩, metallic := 0, roughness := 5 / 10 }

instance (c : Cube) : Decidable (InField c) := by unfold InField; infer_instance

instance (g : List Cube) : Decidable (NoOverlap g) := by unfold NoOverlap; infer_instance

/-- A complete layer: one cube on each of the 100 cells of height `y`. -/
def fullLayer (y : ℚ) : List Cube :=
  (List.range 100).map fun i => plainCube ((i / 10 : Nat) : ℚ) y ((i % 10 : Nat) : ℚ)

/-- What the clear of layer `y0` is to do with a cube that survives it. -/
def loweredAbove (y0 : Int) (c : Cube) : Cube :=
  if y0 < cround c.pos.y then
    { pos := ⟨c.pos.x, c.pos.y - 1, c.pos.z⟩, albedo := c.albedo, metallic := c.metallic,
      roughness := c.roughness }
  else c

/-- Some cube of the piece is at or above the game-over height. -/
def ReachesLimit (piece : List Cube) : Prop :=
  ∃ c ∈ piece, c.pos.y ≥ (GAME_OVER_HEIGHT : ℚ)

instance (piece : List Cube) : Decidable (ReachesLimit piece) := by
  unfold ReachesLimit; infer_instance

/-- Layer 5 with the four cells `x = 3..6`, `z = 5` left empty. -/
def almostFullLayer : List Cube :=
  (fullLayer 5).filter fun c => !(decide (c.pos.z = 5) && decide (3 ≤ c.pos.x) && decide (c.pos.x ≤ 6))

/-- A state in which the straight piece rests in the gap of `almostFullLayer`. -/
def lockState : State :=
  { grid := almostFullLayer,
    currentPiece := [plainCube 5 5 5, plainCube 6 5 5, plainCube 4 5 5, plainCube 3 5 5],
    pieceCenter := ⟨5, 5, 5⟩, paused := false, gameOver := false, score := 40,
    currentMaterialIndex := 0 }

/-- A running game whose score is `INT_MAX`, the straight piece resting on the floor. -/
def brimState : State :=
  { grid := [],
    currentPiece := [plainCube 5 0 5, plainCube 6 0 5, plainCube 4 0 5, plainCube 3 0 5],
    pieceCenter := ⟨5, 0, 5⟩, paused := false, gameOver := false, score := 2147483647,
    currentMaterialIndex := 0 }

/-- A state in which the straight piece rests on a tower that reaches height 14. -/
def towerState : State :=
  { grid := [plainCube 5 13 5],
    currentPiece := [plainCube 5 14 5, plainCube 6 14 5, plainCube 4 14 5, plainCube 3 14 5],
    pieceCenter := ⟨5, 14, 5⟩, paused := false, gameOver := false, score := 40,
    currentMaterialIndex := 0 }

/-- The vector has integer coordinates: rounding does not move it. -/
def IsLattice (v : Vec3) : Prop := roundVec v = v

instance (v : Vec3) : Decidable (IsLattice v) := by unfold IsLattice; infer_instance

/-- The T-shaped piece as `spawnPiece` places it, with its pivot. -/
def spawnedT : List Cube :=
  [plainCube 5 18 5, plainCube 6 18 5, plainCube 4 18 5, plainCube 5 17 5]

/-- The piece moved straight down by `k` units. -/
def loweredBy (k : Nat) (piece : List Cube) : List Cube :=
  piece.map fun b => { b with pos := ⟨b.pos.x, b.pos.y - (k : ℚ), b.pos.z⟩ }

/-- The pivot moved straight down by `k` units. -/
def centerLoweredBy (k : Nat) (c : Vec3) : Vec3 := ⟨c.x, c.y - (k : ℚ), c.z⟩

/-- A number of iterations that the hard-drop loop cannot exceed: the first
cube of the piece has to stay at a height of at least 0. -/
def dropBound : List Cube → Nat
  | [] => 0
  | c :: _ => Int.toNat ⌈c.pos.y⌉ + 1

/-- The state of `towerState` before the drop: the straight piece at its spawn
position above the tower. -/
def towerStart : State :=
  { towerState with
    currentPiece := [plainCube 5 18 5, plainCube 6 18 5, plainCube 4 18 5, plainCube 3 18 5],
    pieceCenter := ⟨5, 18, 5⟩ }

/-- A finished game: one landed cube at the limit, `gameOver` set. -/
def overState : State :=
  { grid := [plainCube 5 14 5], currentPiece := spawnedT, pieceCenter := ⟨5, 18, 5⟩,
    paused := false, gameOver := true, score := 70, currentMaterialIndex := 0 }

/-! ## Ranges in which the `float` and `int` arithmetic of the program is exact -/

/-- No coordinate of the vector exceeds `B` in magnitude. -/
def InRange (B : ℚ) (v : Vec3) : Prop := |v.x| ≤ B ∧ |v.y| ≤ B ∧ |v.z| ≤ B

instance (B : ℚ) (v : Vec3) : Decidable (InRange B v) := by unfold InRange; infer_instance

/-- Every cube of the piece is at most `B` away from the pivot along `x` and `z`,
the two axes that the rotation mixes. -/
def OffsetsWithin (B : ℚ) (center : Vec3) (piece : List Cube) : Prop :=
  ∀ c ∈ piece, |c.pos.x - center.x| ≤ B ∧ |c.pos.z - center.z| ≤ B

instance (B : ℚ) (center : Vec3) (piece : List Cube) : Decidable (OffsetsWithin B center piece) := by
  unfold OffsetsWithin; infer_instance

/-- No cube of the list is higher than `FLOAT_EXACT = 2^24`: lowering it by 1 is
exact in `float`. -/
def HeightsExact (g : List Cube) : Prop := ∀ c ∈ g, c.pos.y ≤ FLOAT_EXACT

instance (g : List Cube) : Decidable (HeightsExact g) := by unfold HeightsExact; infer_instance

/-- The coordinates within which the rotation step of the program is exact: up to
`2^20`, where offsets stay below `2^21`, the products with `COS_QUARTER` below
`1/2` and all sums below `2^24`. -/
def ROTATE_RANGE : ℚ := 1048576

/-- The range within which the descent of the hard drop is exact: up to `2^23`,
so that after at most `2^23` steps the pivot is still within `2^24`. -/
def DROP_RANGE : ℚ := 8388608

/-! ## Reachable states -/

inductive Event where
  | tick (r : Nat)
  | key (key : Key) (action : Action) (r : Nat)

/-- One event of the main loop: an expired fall timer or a key event. -/
def step (fuel : Nat) (e : Event) (s : State) : Option State :=
  match e with
  | Event.tick r => tick fuel r s
  | Event.key key action r => key_callback fuel key action r s

/-- The states the program can be in when it polls for events. -/
inductive Reachable : State → Prop where
  | init (r : Nat) : Reachable (initState r)
  | next (fuel : Nat) (e : Event) (s t : State) :
      Reachable s → step fuel e s = some t → Reachable t

/-- What the program maintains between two events: the landed cubes and the
cubes of the piece are on the lattice, no two landed cubes and no two cubes of
the piece share a cell, the piece is not empty and its cubes are at most 2 away
from the pivot, and while the game runs the piece is on a legal place. -/
structure Inv (s : State) : Prop where
  gridCells : NoOverlap s.grid
  gridLattice : ∀ c ∈ s.grid, IsLattice c.pos
  pieceLattice : ∀ c ∈ s.currentPiece, IsLattice c.pos
  centerLattice : IsLattice s.pieceCenter
  pieceCells : NoOverlap s.currentPiece
  pieceNonempty : s.currentPiece ≠ []
  pieceNear : OffsetsWithin 2 s.pieceCenter s.currentPiece
  legal : s.gameOver = false → checkCollision s.grid ⟨0, 0, 0⟩ s.currentPiece = false

/-- The state after the program started with the straight piece and Enter was
pressed (the next piece is the T-shaped one). -/
def afterFirstDrop : State :=
  (key_callback 40 Key.ENTER Action.PRESS 3 (initState 0)).getD initialGlobals

/-- The state after Enter was pressed a second time. -/
def afterSecondDrop : State :=
  (key_callback 40 Key.ENTER Action.PRESS 6 afterFirstDrop).getD initialGlobals

/-! ## The height limit -/

/-- Every cube of the list is at a height in `[0, GAME_OVER_HEIGHT)`. -/
def BelowLimit (g : List Cube) : Prop :=
  ∀ c ∈ g, 0 ≤ c.pos.y ∧ c.pos.y < (GAME_OVER_HEIGHT : ℚ)

instance (g : List Cube) : Decidable (BelowLimit g) := by unfold BelowLimit; infer_instance

/-- The call `spawnPiece ()` made in state `u` leaves `gameOver` and the grid as
they are and puts the new piece on a place that `checkCollision` accepts, its
cubes at height 17 or 18, `x` from 3 to 6 and `z = 5`. -/
def SpawnsLegally (r : Nat) (u : State) : Prop :=
  (spawnPiece r u).gameOver = u.gameOver ∧ (spawnPiece r u).grid = u.grid ∧
  checkCollision u.grid ⟨0, 0, 0⟩ (spawnPiece r u).currentPiece = false ∧
  ∀ c ∈ (spawnPiece r u).currentPiece,
    (c.pos.y = 17 ∨ c.pos.y = 18) ∧ 3 ≤ c.pos.x ∧ c.pos.x ≤ 6 ∧ c.pos.z = 5

/-- The event `e` took `s` to `t` by locking a piece that has a cube at or above
the limit: a blocked gravity tick locking the active piece where it is, or a
hard drop locking it where its descent ended; nothing else changed and no piece
was spawned. -/
def OverflowLock (fuel : Nat) (e : Event) (s t : State) : Prop :=
  ∃ (piece : List Cube) (center : Vec3), ReachesLimit piece ∧
    t = { s with grid := s.grid ++ piece, currentPiece := piece, pieceCenter := center,
                 gameOver := true } ∧
    ((∃ r, e = Event.tick r ∧ s.paused = false ∧
        checkCollision s.grid down s.currentPiece = true ∧
        piece = s.currentPiece ∧ center = s.pieceCenter) ∨
     (∃ action r, e = Event.key Key.ENTER action r ∧ action ≠ Action.RELEASE ∧
        s.paused = false ∧
        hardDropLoop s.grid fuel s.currentPiece s.pieceCenter = some (piece, center)))

/-- The run in which the program starts with the square piece and Enter is
pressed `n` times, the square piece being spawned every time. -/
def squareRun : Nat → Option State
  | 0 => some (initState 6)
  | n + 1 => (squareRun n).bind (key_callback 60 Key.ENTER Action.PRESS 6)

/-- The state at the end of `squareRun n`. -/
def squareDrops (n : Nat) : State := (squareRun n).getD initialGlobals

/-! ## Rounding -/

theorem floor_half : ⌊(1 / 2 : ℚ)⌋ = 0 := by
  rw [Int.floor_eq_iff]; norm_num

theorem cround_intCast (n : Int) : cround (n : ℚ) = n := by
  unfold cround
  split
  · rw [Int.floor_int_add, floor_half]; simp
  · have h : (-(n : ℚ)) = ((-n : Int) : ℚ) := by push_cast; ring
    rw [h, Int.floor_int_add, floor_half]; simp

theorem cround_nonneg {q : ℚ} (h : 0 ≤ q) : 0 ≤ cround q := by
  unfold cround
  rw [if_pos h]
  apply Int.floor_nonneg.mpr
  linarith

theorem neg_of_cround_neg {q : ℚ} (h : cround q < 0) : q < 0 := by
  by_contra hq
  have := cround_nonneg (le_of_not_lt hq)
  omega

theorem cround_sub_one {q : ℚ} (h : 0 ≤ cround (q - 1)) : cround q = cround (q - 1) + 1 := by
  by_cases h1 : 0 ≤ q - 1
  · have h0 : 0 ≤ q := by linarith
    unfold cround
    rw [if_pos h1, if_pos h0]
    have : q + 1 / 2 = (q - 1 + 1 / 2) + ((1 : Int) : ℚ) := by push_cast; ring
    rw [this, Int.floor_add_int]
  · have hc : cround (q - 1) = -⌊-(q - 1) + 1 / 2⌋ := by unfold cround; rw [if_neg h1]
    rw [hc] at h ⊢
    have hle : ⌊-(q - 1) + 1 / 2⌋ ≤ 0 := by omega
    have hlt : -(q - 1) + 1 / 2 < 1 := by
      have := Int.lt_floor_add_one (-(q - 1) + 1 / 2)
      have h2 : ((⌊-(q - 1) + 1 / 2⌋ : Int) : ℚ) ≤ 0 := by exact_mod_cast hle
      linarith
    have hq0 : 0 ≤ q := by linarith
    have hf0 : ⌊-(q - 1) + 1 / 2⌋ = 0 := by
      rw [Int.floor_eq_iff]; constructor <;> push_cast <;> linarith
    have hq1 : cround q = 1 := by
      unfold cround
      rw [if_pos hq0, Int.floor_eq_iff]; constructor <;> push_cast <;> linarith
    rw [hq1, hf0]; rfl

/-! ## `checkCollision` rejects every placement that leaves the field -/

theorem checkCollision_cons (grid : List Cube) (d : Vec3) (cube : Cube) (rest : List Cube) :
    checkCollision grid d (cube :: rest) =
      (outOfField (cube.pos.add d) || hitsLanded grid (cube.pos.add d) ||
        checkCollision grid d rest) := by
  simp only [checkCollision]
  cases outOfField (cube.pos.add d) <;> cases hitsLanded grid (cube.pos.add d) <;> simp

theorem outOfField_of_roundsOutside {p : Vec3} (h : RoundsOutside p) : outOfField p = true := by
  unfold outOfField
  rcases h with h | h | h | h | h
  · simp [neg_of_cround_neg h]
  · simp [h]
  · simp [neg_of_cround_neg h]
  · simp [h]
  · simp [neg_of_cround_neg h]

/-- C2: whatever the grid holds, `checkCollision (d, P)` returns true as soon as
some cube of `P`, moved by `d`, rounds to a coordinate outside the field
(`x` or `z` below 0 or at least 10, or `y` below 0). -/
theorem checkCollision_outside (grid : List Cube) (d : Vec3) (piece : List Cube)
    (h : ∃ cube ∈ piece, RoundsOutside (cube.pos.add d)) :
    checkCollision grid d piece = true := by
  induction piece with
  | nil => simp at h
  | cons c rest ih =>
    rw [checkCollision_cons]
    obtain ⟨cube, hmem, hout⟩ := h
    rcases List.mem_cons.mp hmem with rfl | hrest
    · simp [outOfField_of_roundsOutside hout]
    · simp [ih ⟨cube, hrest, hout⟩]

/-- C2 at a concrete input: a cube at `x = 17/2` moved by `+1` rounds to `x = 10`,
and the placement is rejected although a landed cube is elsewhere. -/
theorem checkCollision_outside_witness :
    (∃ cube ∈ [plainCube (17 / 2) 3 4], RoundsOutside (cube.pos.add ⟨1, 0, 0⟩)) ∧
      checkCollision [plainCube 0 0 0] ⟨1, 0, 0⟩ [plainCube (17 / 2) 3 4] = true :=
  ⟨⟨_, List.mem_singleton.mpr rfl, Or.inr (Or.inl (by decide!))⟩,
   checkCollision_outside _ _ _ ⟨_, List.mem_singleton.mpr rfl, Or.inr (Or.inl (by decide!))⟩⟩

/-! ## The layer loop of `mergePiece` -/

theorem full_iff (g : List Cube) (y : Int) :
    ((cubeCount g y : Int) ≥ GRID_W * GRID_D) ↔ 100 ≤ cubeCount g y := by
  simp only [GRID_W, GRID_D]; omega

theorem clearLoop_exit (fuel : Nat) (y : Int) (st : ClearResult) (hy : GRID_H ≤ y) :
    clearLoop (fuel + 1) y st = some st := by
  rw [clearLoop, if_neg (by omega)]

theorem clearLoop_advance (fuel : Nat) (y : Int) (st : ClearResult) (hy : y < GRID_H)
    (hc : cubeCount st.grid y < 100) :
    clearLoop (fuel + 1) y st = clearLoop fuel (y + 1) st := by
  rw [clearLoop, if_pos hy, if_neg]
  rw [full_iff]; omega

theorem clearLoop_clear (fuel : Nat) (y : Int) (st : ClearResult) (hy : y < GRID_H)
    (hc : 100 ≤ cubeCount st.grid y) :
    clearLoop (fuel + 1) y st =
      clearLoop fuel y { grid := shiftDown (eraseLayer st.grid y) y,
                         score := wrapInt (st.score + 100), cleared := st.cleared + 1 } := by
  rw [clearLoop, if_pos hy, if_pos ((full_iff _ _).mpr hc), Int.sub_add_cancel]

theorem clearLoop_skip (n : Nat) : ∀ (y : Int) (st : ClearResult) (fuel : Nat),
    (∀ k, y ≤ k → k < y + n → cubeCount st.grid k < 100) → y + n ≤ GRID_H →
    clearLoop (fuel + n) y st = clearLoop fuel (y + n) st := by
  induction n with
  | zero => intro y st fuel _ _; simp
  | succ n ih =>
    intro y st fuel h hy
    have e : fuel + (n + 1) = (fuel + n) + 1 := by omega
    rw [e, clearLoop_advance _ _ _ (by omega) (h y (le_refl _) (by omega)),
      ih (y + 1) st fuel (fun k h1 h2 => h k (by omega) (by omega)) (by omega)]
    congr 1; push_cast; ring

theorem clearLoop_quiet (y : Int) (st : ClearResult) (fuel : Nat) (hy0 : 0 ≤ y) (hy : y ≤ GRID_H)
    (h : ∀ k, y ≤ k → k < GRID_H → cubeCount st.grid k < 100) (hf : 21 ≤ fuel) :
    clearLoop fuel y st = some st := by
  obtain ⟨n, hn⟩ : ∃ n : Nat, y + n = GRID_H := ⟨(GRID_H - y).toNat, by omega⟩
  have hn20 : n ≤ 20 := by simp only [GRID_H] at hn; omega
  obtain ⟨f, rfl⟩ : ∃ f, fuel = (f + 1) + n := ⟨fuel - n - 1, by omega⟩
  rw [clearLoop_skip n y st (f + 1) (fun k h1 h2 => h k h1 (by omega)) (by omega), hn]
  exact clearLoop_exit _ _ _ (le_refl _)

theorem clearLoop_fuel_succ : ∀ (fuel : Nat) (y : Int) (st res : ClearResult),
    clearLoop fuel y st = some res → clearLoop (fuel + 1) y st = some res := by
  intro fuel
  induction fuel with
  | zero => intro y st res h; simp [clearLoop] at h
  | succ f ih =>
    intro y st res h
    rw [clearLoop] at h
    rw [clearLoop]
    split at h
    · rw [if_pos (by assumption)]
      split at h
      · rw [if_pos (by assumption)]; exact ih _ _ _ h
      · rw [if_neg (by assumption)]; exact ih _ _ _ h
    · rw [if_neg (by assumption)]; exact h

theorem clearLoop_fuel_le {fuel fuel2 : Nat} (hle : fuel ≤ fuel2) (y : Int) (st res : ClearResult)
    (h : clearLoop fuel y st = some res) : clearLoop fuel2 y st = some res := by
  induction hle with
  | refl => exact h
  | step _ ih => exact clearLoop_fuel_succ _ _ _ _ ih

/-! ### Layer counts after a clear -/

theorem lowerCube_layer_of_nonneg {y : Int} {c : Cube} (hne : cround c.pos.y ≠ y)
    (h0 : 0 ≤ cround (lowerCube y c).pos.y) :
    (cround c.pos.y < y ∧ cround (lowerCube y c).pos.y = cround c.pos.y) ∨
    (y < cround c.pos.y ∧ cround c.pos.y = cround (lowerCube y c).pos.y + 1) := by
  unfold lowerCube at h0 ⊢
  by_cases hgt : cround c.pos.y > y
  · rw [if_pos hgt] at h0 ⊢
    right
    exact ⟨hgt, cround_sub_one h0⟩
  · rw [if_neg hgt]
    left
    exact ⟨by omega, rfl⟩

theorem cubeCount_clear (g : List Cube) (y k : Int) :
    cubeCount (shiftDown (eraseLayer g y) y) k =
      g.countP (fun c => (cround (lowerCube y c).pos.y == k) && !(cround c.pos.y == y)) := by
  unfold cubeCount shiftDown eraseLayer
  rw [List.countP_map, List.countP_filter]
  rfl

theorem cubeCount_clear_below (g : List Cube) {y k : Int} (hk0 : 0 ≤ k) (hk : k < y) :
    cubeCount (shiftDown (eraseLayer g y) y) k = cubeCount g k := by
  rw [cubeCount_clear]
  unfold cubeCount
  apply List.countP_congr
  intro c _
  simp only [Bool.and_eq_true, beq_iff_eq, Bool.not_eq_true', beq_eq_false_iff_ne, ne_eq]
  constructor
  · rintro ⟨h1, h2⟩
    rcases lowerCube_layer_of_nonneg h2 (by omega) with ⟨_, h⟩ | ⟨_, h⟩ <;> omega
  · intro h
    have hne : cround c.pos.y ≠ y := by omega
    refine ⟨?_, hne⟩
    unfold lowerCube
    rw [if_neg (by omega)]; exact h

theorem cubeCount_clear_above (g : List Cube) {y k : Int} (hk0 : 0 ≤ k) (hk : y ≤ k) :
    cubeCount (shiftDown (eraseLayer g y) y) k ≤ cubeCount g (k + 1) := by
  rw [cubeCount_clear]
  unfold cubeCount
  apply List.countP_mono_left
  intro c _
  simp only [Bool.and_eq_true, beq_iff_eq, Bool.not_eq_true', beq_eq_false_iff_ne, ne_eq]
  rintro ⟨h1, h2⟩
  rcases lowerCube_layer_of_nonneg h2 (by omega) with ⟨_, h⟩ | ⟨_, h⟩ <;> omega

theorem length_clear (g : List Cube) (y : Int) :
    (shiftDown (eraseLayer g y) y).length + cubeCount g y = g.length := by
  unfold shiftDown eraseLayer cubeCount
  rw [List.length_map, List.countP_eq_length_filter, ← List.length_append]
  have := List.filter_append_perm (fun c => cround c.pos.y == y) g
  rw [← this.length_eq, List.length_append, List.length_append]; omega

/-- From any layer index, with enough fuel, the layer loop returns, and the grid
it returns has no full layer in `[0, GRID_H)`. -/
theorem clearLoop_terminates (fuel : Nat) : ∀ (y : Int) (st : ClearResult), 0 ≤ y → y ≤ GRID_H →
    (GRID_H - y).toNat + st.grid.length + 1 ≤ fuel →
    (∀ k, 0 ≤ k → k < y → cubeCount st.grid k < 100) →
    ∃ res, clearLoop fuel y st = some res ∧
      (∀ k, 0 ≤ k → k < GRID_H → cubeCount res.grid k < 100) ∧
      st.cleared ≤ res.cleared ∧ res.grid.length ≤ st.grid.length := by
  induction fuel with
  | zero => intro y st _ _ hf _; omega
  | succ f ih =>
    intro y st hy0 hy hf hinv
    by_cases hlt : y < GRID_H
    · by_cases hc : cubeCount st.grid y < 100
      · rw [clearLoop_advance _ _ _ hlt hc]
        apply ih (y + 1) st (by omega) (by omega) (by omega)
        intro k hk0 hk
        by_cases hky : k = y
        · rw [hky]; exact hc
        · exact hinv k hk0 (by omega)
      · rw [clearLoop_clear _ _ _ hlt (by omega)]
        have hlen := length_clear st.grid y
        obtain ⟨res, h1, h2, h4, h5⟩ := ih y
          { grid := shiftDown (eraseLayer st.grid y) y, score := wrapInt (st.score + 100),
            cleared := st.cleared + 1 } hy0 hy (by simp only; omega)
          (by
            intro k hk0 hk
            simp only
            rw [cubeCount_clear_below _ hk0 hk]
            exact hinv k hk0 hk)
        refine ⟨res, h1, h2, ?_, ?_⟩
        · simp only at h4; omega
        · simp only at h5; omega
    · have hy20 : y = GRID_H := by omega
      obtain ⟨f2, rfl⟩ : ∃ f2, f = f2 := ⟨f, rfl⟩
      rw [clearLoop_exit _ _ _ (by omega)]
      refine ⟨st, rfl, ?_, le_refl _, le_refl _⟩
      intro k hk0 hk
      exact hinv k hk0 (by omega)

/-! ### The score after the layer loop -/

theorem wrapInt_of_inRange {x : Int} (h1 : INT_MIN ≤ x) (h2 : x ≤ INT_MAX) : wrapInt x = x := by
  unfold INT_MIN at h1
  unfold INT_MAX at h2
  unfold wrapInt
  omega

/-- The layer loop counts up, and as long as the `int` does not overflow the
score it returns is the old score plus 100 for every layer it cleared. -/
theorem clearLoop_score : ∀ (fuel : Nat) (y : Int) (st res : ClearResult),
    clearLoop fuel y st = some res →
    st.cleared ≤ res.cleared ∧
    (INT_MIN ≤ st.score →
      st.score + 100 * ((res.cleared : Int) - (st.cleared : Int)) ≤ INT_MAX →
      res.score = st.score + 100 * ((res.cleared : Int) - (st.cleared : Int))) := by
  intro fuel
  induction fuel with
  | zero => intro y st res h; simp [clearLoop] at h
  | succ f ih =>
    intro y st res h
    rw [clearLoop] at h
    split at h
    · split at h
      · obtain ⟨hc, hs⟩ := ih _ _ _ h
        simp only at hc hs
        refine ⟨by omega, ?_⟩
        intro hmin hmax
        have hw : wrapInt (st.score + 100) = st.score + 100 := by
          apply wrapInt_of_inRange
          · unfold INT_MIN at hmin ⊢; omega
          · unfold INT_MAX at hmax ⊢; omega
        rw [hw] at hs
        rw [hs (by unfold INT_MIN at hmin ⊢; omega) (by push_cast; linarith)]
        push_cast; ring
      · exact ih _ _ _ h
    · simp only [Option.some.injEq] at h
      rw [← h]
      exact ⟨le_refl _, fun _ _ => by ring⟩

/-! ### A layer of a well-formed grid holds at most `GRID_W * GRID_D` cubes -/

theorem cubeCount_le_of_noOverlap (g : List Cube) (y : Int) (hf : ∀ c ∈ g, InField c)
    (hno : NoOverlap g) : cubeCount g y ≤ 100 := by
  have hnd : ((g.filter fun c => cround c.pos.y == y).map cell).Nodup :=
    hno.sublist ((List.filter_sublist g).map cell)
  have hlen : ((g.filter fun c => cround c.pos.y == y).map cell).length = cubeCount g y := by
    rw [List.length_map, cubeCount, List.countP_eq_length_filter]
  have hsub : ((g.filter fun c => cround c.pos.y == y).map cell).toFinset ⊆
      Finset.Ico (0 : Int) 10 ×ˢ (({y} : Finset Int) ×ˢ Finset.Ico (0 : Int) 10) := by
    intro p hp
    rw [List.mem_toFinset, List.mem_map] at hp
    obtain ⟨c, hc, rfl⟩ := hp
    rw [List.mem_filter] at hc
    obtain ⟨hx0, hx1, hz0, hz1⟩ := hf c hc.1
    have hy : cround c.pos.y = y := by simpa using hc.2
    simp only [GRID_W, GRID_D] at hx1 hz1
    simp [cell, cellOf, hx0, hx1, hz0, hz1, hy]
  have hcard := Finset.card_le_card hsub
  rw [List.toFinset_card_of_nodup hnd, hlen] at hcard
  simpa using hcard

theorem clearLines_single (g : List Cube) (score : Int) (y0 : Int) (fuel : Nat)
    (hy0 : 0 ≤ y0) (hy1 : y0 < GRID_H) (hfull : cubeCount g y0 = 100)
    (hless : ∀ y, y ≠ y0 → cubeCount g y < 100) (hfuel : 42 ≤ fuel) :
    clearLines fuel g score =
      some { grid := shiftDown (eraseLayer g y0) y0, score := wrapInt (score + 100),
             cleared := 1 } := by
  apply @clearLoop_fuel_le (22 + y0.toNat) fuel (by simp only [GRID_H] at hy1; omega)
  have hcast : (0 : Int) + (y0.toNat : Int) = y0 := by omega
  rw [clearLoop_skip y0.toNat 0 _ 22 (fun k _ h2 => hless k (by omega)) (by omega), hcast,
    clearLoop_clear 21 y0 _ hy1 (by simp only; omega)]
  apply clearLoop_quiet _ _ _ hy0 (by omega) _ (le_refl _)
  intro k hk0 _
  have := cubeCount_clear_above g (y := y0) (k := k) (by omega) hk0
  have := hless (k + 1) (by omega)
  simp only
  omega

theorem shiftDown_eraseLayer_eq (g : List Cube) (y0 : Int) :
    shiftDown (eraseLayer g y0) y0 =
      (g.filter fun c => decide (cround c.pos.y ≠ y0)).map (loweredAbove y0) := by
  have hf : (fun c : Cube => !(cround c.pos.y == y0)) =
      fun c => decide (cround c.pos.y ≠ y0) := by
    funext c
    by_cases h : cround c.pos.y = y0 <;> simp [h]
  have hm : lowerCube y0 = loweredAbove y0 := by
    funext c
    unfold lowerCube loweredAbove
    by_cases h : y0 < cround c.pos.y
    · rw [if_pos h]
    · rw [if_neg h]
  unfold shiftDown eraseLayer
  rw [hf, hm]

/-- C1: on a grid of cubes inside the field, none higher than `2^24` (where
`float` subtraction of 1 is exact), no two on the same cell, in which layer `y0`
(with `0 <= y0 < GRID_H`) is the only layer holding exactly
`GRID_W * GRID_D = 100` cubes, the line-clear pass clears exactly one layer: the
grid it returns is the old grid without the cubes of layer `y0`, every cube
above `y0` lowered by exactly 1 and every other field of every surviving cube
unchanged; a score between `INT_MIN` and `INT_MAX - 100` has 100 added once. -/
theorem clearLines_one_full_layer (g : List Cube) (score : Int) (y0 : Int) (fuel : Nat)
    (hfield : ∀ c ∈ g, InField c) (_hexact : HeightsExact g) (hno : NoOverlap g)
    (hmin : INT_MIN ≤ score) (hmax : score + 100 ≤ INT_MAX)
    (hy0 : 0 ≤ y0) (hy1 : y0 < GRID_H)
    (hfull : (cubeCount g y0 : Int) = GRID_W * GRID_D)
    (honly : ∀ y, y ≠ y0 → (cubeCount g y : Int) ≠ GRID_W * GRID_D)
    (hfuel : g.length + 21 ≤ fuel) :
    clearLines fuel g score =
      some { grid := (g.filter fun c => decide (cround c.pos.y ≠ y0)).map (loweredAbove y0),
             score := score + 100, cleared := 1 } := by
  simp only [GRID_W, GRID_D] at hfull honly
  have hfull2 : cubeCount g y0 = 100 := by omega
  have hlen : cubeCount g y0 ≤ g.length := List.countP_le_length _
  have hw : wrapInt (score + 100) = score + 100 :=
    wrapInt_of_inRange (by unfold INT_MIN at hmin ⊢; omega) hmax
  rw [← shiftDown_eraseLayer_eq, ← hw]
  apply clearLines_single g score y0 fuel hy0 hy1 hfull2 _ (by omega)
  intro y hy
  have h1 := cubeCount_le_of_noOverlap g y hfield hno
  have h2 := honly y hy
  omega

theorem cubeCount_ne_zero {g : List Cube} {y : Int} (h : cubeCount g y ≠ 0) :
    ∃ c ∈ g, cround c.pos.y = y := by
  unfold cubeCount at h
  have hpos : 0 < g.countP fun c => cround c.pos.y == y := Nat.pos_of_ne_zero h
  obtain ⟨c, hc, hp⟩ := List.countP_pos_iff.mp hpos
  exact ⟨c, hc, by simpa using hp⟩

set_option maxRecDepth 100000 in
/-- C1 at the scenario of the specification: 100 cubes at `y = 5` and one cube
at `y = 6`; the pass reports one cleared layer and leaves the single cube, now
at `y = 5`. -/
theorem clearLines_one_full_layer_witness :
    ((∀ c ∈ fullLayer 5 ++ [plainCube 0 6 0], InField c) ∧
      HeightsExact (fullLayer 5 ++ [plainCube 0 6 0]) ∧
      NoOverlap (fullLayer 5 ++ [plainCube 0 6 0]) ∧
      INT_MIN ≤ (0 : Int) ∧ (0 : Int) + 100 ≤ INT_MAX ∧
      (cubeCount (fullLayer 5 ++ [plainCube 0 6 0]) 5 : Int) = GRID_W * GRID_D) ∧
    clearLines 122 (fullLayer 5 ++ [plainCube 0 6 0]) 0 =
      some { grid := [plainCube 0 5 0], score := 100, cleared := 1 } :=
  ⟨⟨by decide!, by decide!, by decide!, by decide, by decide, by decide!⟩,
   (clearLines_one_full_layer (fullLayer 5 ++ [plainCube 0 6 0]) 0 5 122
      (by decide!) (by decide!) (by decide!) (by decide) (by decide)
      (by decide) (by decide) (by decide!)
      (by
        intro y hy h
        have hne : cubeCount (fullLayer 5 ++ [plainCube 0 6 0]) y ≠ 0 := by
          simp only [GRID_W, GRID_D] at h; omega
        obtain ⟨c, hc, hcy⟩ := cubeCount_ne_zero hne
        have hall : ∀ c ∈ fullLayer 5 ++ [plainCube 0 6 0],
            cround c.pos.y = 5 ∨ cround c.pos.y = 6 := by decide!
        rcases hall c hc with h5 | h6
        · omega
        · have h1 : cubeCount (fullLayer 5 ++ [plainCube 0 6 0]) 6 = 1 := by decide!
          have hy6 : y = 6 := by omega
          rw [hy6, h1] at h
          simp [GRID_W, GRID_D] at h)
      (by decide!)).trans (by decide!)⟩

/-- C8: the line-clear pass returns on every grid (fuel `length + 21` is
enough), and a second pass on the grid it returned clears no layer and returns
that grid unchanged. -/
theorem clearLines_idempotent (g : List Cube) (score : Int) :
    ∃ res : ClearResult,
      (∀ extra, clearLines (g.length + 21 + extra) g score = some res) ∧
      ∀ extra score2, clearLines (res.grid.length + 21 + extra) res.grid score2 =
        some { grid := res.grid, score := score2, cleared := 0 } := by
  obtain ⟨res, h1, h2, _, _⟩ := clearLoop_terminates (g.length + 21) 0
    { grid := g, score := score, cleared := 0 } (le_refl _) (by decide)
    (by simp only [GRID_H]; omega) (fun k h0 hk => by omega)
  refine ⟨res, ?_, ?_⟩
  · intro extra
    exact clearLoop_fuel_le (by omega) _ _ _ h1
  · intro extra score2
    exact clearLoop_quiet 0 _ _ (le_refl _) (by decide) (fun k hk0 hk => h2 k hk0 hk) (by omega)

/-! ## `mergePiece` -/

theorem lockCubes_eq (piece : List Cube) : ∀ (grid : List Cube) (go : Bool),
    lockCubes piece grid go =
      (grid ++ piece, go || piece.any fun c => decide (c.pos.y ≥ (GAME_OVER_HEIGHT : ℚ))) := by
  induction piece with
  | nil => intro grid go; simp [lockCubes]
  | cons c rest ih =>
    intro grid go
    rw [lockCubes, ih]
    by_cases h : c.pos.y ≥ (GAME_OVER_HEIGHT : ℚ)
    · simp [h]
    · simp [h]

theorem lockCubes_of_reaches {piece : List Cube} (h : ReachesLimit piece) (grid : List Cube)
    (go : Bool) : lockCubes piece grid go = (grid ++ piece, true) := by
  rw [lockCubes_eq]
  obtain ⟨c, hc, hy⟩ := h
  have : (piece.any fun c => decide (c.pos.y ≥ (GAME_OVER_HEIGHT : ℚ))) = true :=
    List.any_eq_true.mpr ⟨c, hc, by simpa using hy⟩
  rw [this, Bool.or_true]

theorem lockCubes_of_low {piece : List Cube} (h : ¬ReachesLimit piece) (grid : List Cube) :
    lockCubes piece grid false = (grid ++ piece, false) := by
  rw [lockCubes_eq]
  have : (piece.any fun c => decide (c.pos.y ≥ (GAME_OVER_HEIGHT : ℚ))) = false := by
    rw [Bool.eq_false_iff]
    intro hany
    obtain ⟨c, hc, hy⟩ := List.any_eq_true.mp hany
    exact h ⟨c, hc, by simpa using hy⟩
  rw [this]; rfl

theorem mergePiece_of_reaches {s : State} (h : ReachesLimit s.currentPiece) (fuel : Nat) :
    mergePiece fuel s = some { s with grid := s.grid ++ s.currentPiece, gameOver := true } := by
  unfold mergePiece
  rw [lockCubes_of_reaches h]
  simp

theorem mergePiece_of_low {s : State} (hgo : s.gameOver = false)
    (h : ¬ReachesLimit s.currentPiece) (fuel : Nat) :
    mergePiece fuel s =
      (clearLines fuel (s.grid ++ s.currentPiece) (wrapInt (s.score + 10))).map fun res =>
        { s with grid := res.grid, score := res.score } := by
  unfold mergePiece
  rw [hgo, lockCubes_of_low h]
  simp only [Bool.false_eq_true, if_false]
  cases clearLines fuel (s.grid ++ s.currentPiece) (wrapInt (s.score + 10)) <;> rfl

/-- C4, as the program behaves: when `gameOver` is false, no cube of the active
piece is at `y >= 14` and the score is a 32-bit `int` (not below `INT_MIN`),
`mergePiece` returns (fuel `length + 21` is enough); with `k` the
number of layers its clear pass removes, it raises the score by exactly
`10 + 100 * k` provided `score + 10 + 100 * k` does not exceed `INT_MAX`; `k = 0`
(so `+10`, grid only extended by the piece) when the lock leaves no layer full,
and `k = 1` (so `+110`) when the lock leaves exactly one layer full. -/
theorem mergePiece_score (s : State) (hgo : s.gameOver = false)
    (hlow : ¬ReachesLimit s.currentPiece) (hmin : INT_MIN ≤ s.score) :
    ∃ res : ClearResult,
      (∀ fuel, (s.grid ++ s.currentPiece).length + 21 ≤ fuel →
        clearLines fuel (s.grid ++ s.currentPiece) (wrapInt (s.score + 10)) = some res ∧
        (s.score + 10 + 100 * (res.cleared : Int) ≤ INT_MAX →
          mergePiece fuel s =
            some { s with grid := res.grid,
                          score := s.score + 10 + 100 * (res.cleared : Int) })) ∧
      ((∀ y, 0 ≤ y → y < GRID_H →
          (cubeCount (s.grid ++ s.currentPiece) y : Int) < GRID_W * GRID_D) →
        res.cleared = 0 ∧ res.grid = s.grid ++ s.currentPiece) ∧
      (∀ y0, 0 ≤ y0 → y0 < GRID_H →
        (∀ c ∈ s.grid ++ s.currentPiece, InField c) → NoOverlap (s.grid ++ s.currentPiece) →
        (cubeCount (s.grid ++ s.currentPiece) y0 : Int) = GRID_W * GRID_D →
        (∀ y, y ≠ y0 → (cubeCount (s.grid ++ s.currentPiece) y : Int) ≠ GRID_W * GRID_D) →
        res.cleared = 1) := by
  obtain ⟨res, h1, _, _, _⟩ := clearLoop_terminates ((s.grid ++ s.currentPiece).length + 21) 0
    { grid := s.grid ++ s.currentPiece, score := wrapInt (s.score + 10), cleared := 0 }
    (le_refl _) (by decide) (by simp only [GRID_H]; omega) (fun k h0 hk => by omega)
  have hall : ∀ fuel, (s.grid ++ s.currentPiece).length + 21 ≤ fuel →
      clearLines fuel (s.grid ++ s.currentPiece) (wrapInt (s.score + 10)) = some res :=
    fun fuel hf => clearLoop_fuel_le hf _ _ _ h1
  refine ⟨res, ?_, ?_, ?_⟩
  · intro fuel hf
    refine ⟨hall fuel hf, ?_⟩
    intro hmax
    have hk0 : (0 : Int) ≤ (res.cleared : Int) := Int.ofNat_nonneg _
    have hw : wrapInt (s.score + 10) = s.score + 10 := by
      apply wrapInt_of_inRange
      · unfold INT_MIN at hmin ⊢; omega
      · unfold INT_MAX at hmax ⊢; omega
    have hsc := (clearLoop_score _ _ _ _ h1).2
    simp only [hw, Nat.cast_zero, sub_zero] at hsc
    have hres := hsc (by unfold INT_MIN at hmin ⊢; omega) hmax
    rw [mergePiece_of_low hgo hlow, hall fuel hf, Option.map_some', hres]
  · intro hq
    have hquiet := clearLoop_quiet 0
      { grid := s.grid ++ s.currentPiece, score := wrapInt (s.score + 10), cleared := 0 }
      ((s.grid ++ s.currentPiece).length + 21) (le_refl _) (by decide)
      (fun k hk0 hk => by
        have := hq k hk0 hk
        simp only [GRID_W, GRID_D] at this
        simp only; omega) (by omega)
    have := (hall _ (le_refl _)).symm.trans hquiet
    rw [Option.some.injEq] at this
    rw [this]; exact ⟨rfl, rfl⟩
  · intro y0 hy0 hy1 hfield hno hfull honly
    simp only [GRID_W, GRID_D] at hfull honly
    have hlen : cubeCount (s.grid ++ s.currentPiece) y0 ≤ (s.grid ++ s.currentPiece).length :=
      List.countP_le_length _
    have hone := clearLines_single (s.grid ++ s.currentPiece) (wrapInt (s.score + 10)) y0
      ((s.grid ++ s.currentPiece).length + 21) hy0 hy1 (by omega)
      (fun y hy => by
        have h1 := cubeCount_le_of_noOverlap _ y hfield hno
        have h2 := honly y hy
        omega) (by omega)
    have := (hall _ (le_refl _)).symm.trans hone
    rw [Option.some.injEq] at this
    rw [this]

/-- C4 as stated fails: with the score at `INT_MAX` a lock that clears no layer
leaves the score at `-2147483639`, which is not the old score plus
`10 + 100 * k` for any `k`. -/
theorem mergePiece_score_counterexample :
    brimState.gameOver = false ∧ ¬ReachesLimit brimState.currentPiece ∧
    mergePiece 30 brimState =
      some { brimState with grid := brimState.currentPiece, score := -2147483639 } ∧
    ¬∃ k : Nat, (-2147483639 : Int) = brimState.score + 10 + 100 * (k : Int) := by
  refine ⟨by decide!, by decide!, by decide!, ?_⟩
  rintro ⟨k, hk⟩
  have hs : brimState.score = 2147483647 := rfl
  rw [hs] at hk
  omega

set_option maxRecDepth 100000 in
/-- C4 as amended, at a concrete lock: the straight piece fills the gap of a
layer; the hypotheses hold and the lock, which removes that layer, takes the
score from 40 to 150. -/
theorem mergePiece_score_witness :
    (lockState.gameOver = false ∧ ¬ReachesLimit lockState.currentPiece ∧
      INT_MIN ≤ lockState.score ∧
      mergePiece 200 lockState = some { lockState with grid := [], score := 150 }) ∧
    ∃ res : ClearResult,
      (∀ fuel, (lockState.grid ++ lockState.currentPiece).length + 21 ≤ fuel →
        clearLines fuel (lockState.grid ++ lockState.currentPiece)
            (wrapInt (lockState.score + 10)) = some res ∧
        (lockState.score + 10 + 100 * (res.cleared : Int) ≤ INT_MAX →
          mergePiece fuel lockState =
            some { lockState with grid := res.grid,
                                  score := lockState.score + 10 + 100 * (res.cleared : Int) })) ∧
      ((∀ y, 0 ≤ y → y < GRID_H →
          (cubeCount (lockState.grid ++ lockState.currentPiece) y : Int) < GRID_W * GRID_D) →
        res.cleared = 0 ∧ res.grid = lockState.grid ++ lockState.currentPiece) ∧
      (∀ y0, 0 ≤ y0 → y0 < GRID_H →
        (∀ c ∈ lockState.grid ++ lockState.currentPiece, InField c) →
        NoOverlap (lockState.grid ++ lockState.currentPiece) →
        (cubeCount (lockState.grid ++ lockState.currentPiece) y0 : Int) = GRID_W * GRID_D →
        (∀ y, y ≠ y0 →
          (cubeCount (lockState.grid ++ lockState.currentPiece) y : Int) ≠ GRID_W * GRID_D) →
        res.cleared = 1) :=
  ⟨⟨by decide!, by decide!, by decide!, by decide!⟩,
   mergePiece_score lockState (by decide!) (by decide!) (by decide!)⟩

/-! ### The game-over path of a lock -/

theorem moveBlock_of_zero (key : Key) (s : State) (h : moveDirOf key = ⟨0, 0, 0⟩) :
    moveBlock key s = s := by
  unfold moveBlock
  have hz : nonZero ⟨0, 0, 0⟩ = false := by decide!
  simp [h, hz]

theorem hardDrop_enter (fuel : Nat) (action : Action) (r : Nat) (s : State)
    (ha : action ≠ Action.RELEASE) (hp : s.paused = false) (hg : s.gameOver = false) :
    key_callback fuel Key.ENTER action r s =
      match hardDropLoop s.grid fuel s.currentPiece s.pieceCenter with
      | none => none
      | some (piece, center) =>
        match mergePiece fuel { s with currentPiece := piece, pieceCenter := center } with
        | none => none
        | some s3 => if !s3.gameOver then some (spawnPiece r s3) else some s3 := by
  have hb : materialBlock Key.ENTER action (pauseBlock Key.ENTER action
      (resetBlock Key.ENTER action r s)) = s := by
    simp [materialBlock, pauseBlock, resetBlock]
  have hrot : ∀ t, rotateBlock Key.ENTER action t = t := by
    intro t; simp [rotateBlock]
  unfold key_callback
  rw [if_neg ha]
  simp only [hb, hp, hg, Bool.or_self, Bool.false_eq_true, if_false]
  unfold keyPlaying
  rw [moveBlock_of_zero Key.ENTER s (by decide!)]
  unfold hardDropBlock
  rw [if_pos rfl]
  have hid : rotateBlock Key.ENTER action = id := funext hrot
  rw [hid, Option.map_id, id]
  simp only [hp, hg]

/-- C5: when the piece being locked has a cube at `y >= GAME_OVER_HEIGHT = 14`,
`mergePiece` returns with `gameOver` true, the score unchanged and the grid equal
to the old grid followed by the cubes of the piece (nothing removed, nothing
shifted); the blocked gravity tick and the hard drop that made the call leave
that state as it is: they spawn no new piece. -/
theorem mergePiece_gameOver (s : State) (fuel r : Nat) (h : ReachesLimit s.currentPiece) :
    mergePiece fuel s = some { s with grid := s.grid ++ s.currentPiece, gameOver := true } ∧
    (s.paused = false → s.gameOver = false → checkCollision s.grid down s.currentPiece = true →
      tick fuel r s = some { s with grid := s.grid ++ s.currentPiece, gameOver := true }) ∧
    (∀ (s0 : State) (action : Action), action ≠ Action.RELEASE → s0.paused = false →
      s0.gameOver = false →
      hardDropLoop s0.grid fuel s0.currentPiece s0.pieceCenter =
        some (s.currentPiece, s.pieceCenter) →
      key_callback fuel Key.ENTER action r s0 =
        some { s0 with grid := s0.grid ++ s.currentPiece, currentPiece := s.currentPiece,
                       pieceCenter := s.pieceCenter, gameOver := true }) := by
  refine ⟨mergePiece_of_reaches h fuel, ?_, ?_⟩
  · intro hp hg hc
    unfold tick
    rw [hp, hg, hc, mergePiece_of_reaches h fuel]
    simp [hp]
  · intro s0 action ha hp hg hd
    rw [hardDrop_enter fuel action r s0 ha hp hg, hd]
    simp only
    have hm := mergePiece_of_reaches (s := ⟨s0.grid, s.currentPiece, s.pieceCenter, s0.paused,
        s0.gameOver, s0.score, s0.currentMaterialIndex⟩) h fuel
    rw [hm]
    simp

/-- C5 at a concrete lock: the straight piece rests at height 14 on a tower;
the lock sets `gameOver`, keeps the score 40 and only appends the four cubes,
from a blocked tick as well as from a hard drop that started at the spawn
position. -/
theorem mergePiece_gameOver_witness :
    ReachesLimit towerState.currentPiece ∧
    (mergePiece 30 towerState =
        some { towerState with grid := towerState.grid ++ towerState.currentPiece,
                               gameOver := true } ∧
      tick 30 3 towerState =
        some { towerState with grid := towerState.grid ++ towerState.currentPiece,
                               gameOver := true } ∧
      key_callback 30 Key.ENTER Action.PRESS 3 towerStart =
        some { towerStart with grid := towerStart.grid ++ towerState.currentPiece,
                               currentPiece := towerState.currentPiece,
                               pieceCenter := towerState.pieceCenter, gameOver := true }) :=
  ⟨by decide!,
   (mergePiece_gameOver towerState 30 3 (by decide!)).1,
   (mergePiece_gameOver towerState 30 3 (by decide!)).2.1 (by decide!) (by decide!) (by decide!),
   (mergePiece_gameOver towerState 30 3 (by decide!)).2.2 towerStart Action.PRESS (by decide)
     (by decide!) (by decide!) (by decide!)⟩

/-! ## Rotation -/

theorem cround_of_eq_cast {q : ℚ} {n : Int} (h : q = (n : ℚ)) : cround q = n := by
  rw [h, cround_intCast]

/-- Rounding absorbs a residue smaller than one half. -/
theorem cround_add_small (n : Int) (d : ℚ) (h1 : -(1 / 2) < d) (h2 : d < 1 / 2) :
    cround ((n : ℚ) + d) = n := by
  unfold cround
  split
  · rw [Int.floor_eq_iff]
    constructor <;> linarith
  · have : ⌊-((n : ℚ) + d) + 1 / 2⌋ = -n := by
      rw [Int.floor_eq_iff]
      constructor <;> push_cast <;> linarith
    rw [this, neg_neg]

/-- The product of an offset of at most `2^21` with `COS_QUARTER` is below one half. -/
theorem cos_residue_small (x : Int) (h : |x| ≤ 2097152) :
    -(1 / 2) < (x : ℚ) * COS_QUARTER ∧ (x : ℚ) * COS_QUARTER < 1 / 2 := by
  obtain ⟨hlo, hhi⟩ := abs_le.mp h
  have h1 : (-2097152 : ℚ) ≤ (x : ℚ) := by exact_mod_cast hlo
  have h2 : (x : ℚ) ≤ 2097152 := by exact_mod_cast hhi
  unfold COS_QUARTER
  constructor <;> linarith

/-- The rotation step on a lattice cube about a lattice pivot, in coordinates:
for offsets of at most `2^21` it is the exact quarter turn. -/
theorem rotate_lattice (s a b c i j k : Int) (hx : |a - i| ≤ 2097152)
    (hz : |c - k| ≤ 2097152) :
    (Vec3.mk (i : ℚ) (j : ℚ) (k : ℚ)).add
        (roundVec (rotateY ((Vec3.mk (a : ℚ) (b : ℚ) (c : ℚ)).sub ⟨(i : ℚ), (j : ℚ), (k : ℚ)⟩)
          (s : ℚ))) =
      ⟨((i + s * (c - k) : Int) : ℚ), (b : ℚ), ((k - s * (a - i) : Int) : ℚ)⟩ := by
  have hx : cround (((a : ℚ) - i) * COS_QUARTER + ((c : ℚ) - k) * s) = s * (c - k) := by
    have e : ((a : ℚ) - i) * COS_QUARTER + ((c : ℚ) - k) * s =
        ((s * (c - k) : Int) : ℚ) + ((a - i : Int) : ℚ) * COS_QUARTER := by push_cast; ring
    rw [e]
    exact cround_add_small _ _ (cos_residue_small _ hx).1 (cos_residue_small _ hx).2
  have hy : cround ((b : ℚ) - j) = b - j := cround_of_eq_cast (by push_cast; ring)
  have hz : cround (-((a : ℚ) - i) * s + ((c : ℚ) - k) * COS_QUARTER) = -(s * (a - i)) := by
    have e : -((a : ℚ) - i) * s + ((c : ℚ) - k) * COS_QUARTER =
        ((-(s * (a - i)) : Int) : ℚ) + ((c - k : Int) : ℚ) * COS_QUARTER := by push_cast; ring
    rw [e]
    exact cround_add_small _ _ (cos_residue_small _ hz).1 (cos_residue_small _ hz).2
  simp only [Vec3.add, Vec3.sub, roundVec, rotateY, hx, hy, hz]
  congr 1 <;> (push_cast; ring)

/-- Beyond that range the residue counts: with an offset of 12000000 the step by
+90 degrees lands one cell beside the quarter turn. -/
theorem rotate_far_offset :
    rotatePiece 1 ⟨5, 18, 12000005⟩ [plainCube 12000005 18 12000005] =
      [plainCube 4 18 5] := by
  decide!

theorem isLattice_mk (a b c : Int) : IsLattice ⟨(a : ℚ), (b : ℚ), (c : ℚ)⟩ := by
  simp [IsLattice, roundVec, cround_intCast]

theorem IsLattice.exists {v : Vec3} (h : IsLattice v) :
    ∃ a b c : Int, v = ⟨(a : ℚ), (b : ℚ), (c : ℚ)⟩ :=
  ⟨cround v.x, cround v.y, cround v.z, h.symm⟩

theorem unit_cases {s : Int} (hs : s * s = 1) : s = 1 ∨ s = -1 :=
  Int.isUnit_iff.mp (isUnit_of_mul_eq_one s s hs)

theorem rotate_back (s : Int) (hs : s * s = 1) (center : Vec3) (hc : IsLattice center)
    (cube : Cube) (hp : IsLattice cube.pos)
    (hoff : |cube.pos.x - center.x| ≤ 2097152 ∧ |cube.pos.z - center.z| ≤ 2097152) :
    center.add (roundVec (rotateY
      ((center.add (roundVec (rotateY (cube.pos.sub center) (s : ℚ)))).sub center)
        ((-s : Int) : ℚ))) = cube.pos := by
  obtain ⟨i, j, k, rfl⟩ := hc.exists
  obtain ⟨a, b, c, hpos⟩ := hp.exists
  rw [hpos] at hoff
  simp only at hoff
  have hx : |a - i| ≤ 2097152 := by exact_mod_cast hoff.1
  have hz : |c - k| ≤ 2097152 := by exact_mod_cast hoff.2
  have hx2 : |i + s * (c - k) - i| ≤ 2097152 := by
    rcases unit_cases hs with h | h <;> rw [h]
    · simpa using hz
    · have : i + -1 * (c - k) - i = -(c - k) := by ring
      rw [this, abs_neg]; exact hz
  have hz2 : |k - s * (a - i) - k| ≤ 2097152 := by
    rcases unit_cases hs with h | h <;> rw [h]
    · have : k - 1 * (a - i) - k = -(a - i) := by ring
      rw [this, abs_neg]; exact hx
    · have : k - -1 * (a - i) - k = a - i := by ring
      rw [this]; exact hx
  rw [hpos, rotate_lattice s a b c i j k hx hz, rotate_lattice (-s) _ _ _ i j k hx2 hz2]
  have h1 : i + -s * (k - s * (a - i) - k) = a := by
    have : i + -s * (k - s * (a - i) - k) = i + (s * s) * (a - i) := by ring
    rw [this, hs]; ring
  have h2 : k - -s * (i + s * (c - k) - i) = c := by
    have : k - -s * (i + s * (c - k) - i) = k + (s * s) * (c - k) := by ring
    rw [this, hs]; ring
  rw [h1, h2]

theorem rotatePiece_back (s : Int) (hs : s * s = 1) (center : Vec3) (hc : IsLattice center)
    (piece : List Cube) (hp : ∀ cube ∈ piece, IsLattice cube.pos)
    (hoff : OffsetsWithin 2097152 center piece) :
    rotatePiece ((-s : Int) : ℚ) center (rotatePiece (s : ℚ) center piece) = piece := by
  unfold rotatePiece
  rw [List.map_map]
  conv_rhs => rw [← List.map_id piece]
  apply List.map_congr_left
  intro cube hcube
  simp only [Function.comp_apply, id_eq]
  rw [rotate_back s hs center hc cube (hp cube hcube) (hoff cube hcube)]

theorem rotatePiece_height (s : Int) (center : Vec3) (hc : IsLattice center)
    (piece : List Cube) (hp : ∀ cube ∈ piece, IsLattice cube.pos)
    (hoff : OffsetsWithin 2097152 center piece) :
    (rotatePiece (s : ℚ) center piece).map (fun cube => cube.pos.y) =
      piece.map fun cube => cube.pos.y := by
  unfold rotatePiece
  rw [List.map_map]
  apply List.map_congr_left
  intro cube hcube
  have hoc := hoff cube hcube
  obtain ⟨i, j, k, rfl⟩ := hc.exists
  obtain ⟨a, b, c, hpos⟩ := (hp cube hcube).exists
  rw [hpos] at hoc
  simp only at hoc
  simp only [Function.comp_apply]
  rw [hpos, rotate_lattice s a b c i j k (by exact_mod_cast hoc.1) (by exact_mod_cast hoc.2)]

/-- Coordinates within `ROTATE_RANGE` give offsets within `2^21`. -/
theorem offsets_of_inRange {center : Vec3} {piece : List Cube}
    (hc : InRange ROTATE_RANGE center) (hp : ∀ cube ∈ piece, InRange ROTATE_RANGE cube.pos) :
    OffsetsWithin 2097152 center piece := by
  intro cube hcube
  obtain ⟨hx, _, hz⟩ := hp cube hcube
  obtain ⟨cx, _, cz⟩ := hc
  unfold ROTATE_RANGE at hx hz cx cz
  rw [abs_le] at hx hz cx cz ⊢
  rw [abs_le]
  refine ⟨⟨by linarith, by linarith⟩, ⟨by linarith, by linarith⟩⟩

/-- C9: for a piece whose cubes and pivot have integer coordinates of magnitude
at most `2^20` (where the `float` sums are exact and the rounding absorbs the
residue of the `float` cosine), the rotation step by +90 degrees followed by the
step by -90 degrees, and the two in the opposite order, give back the piece
(every cube at its original position, hence at its original offset from the
pivot); neither step changes the `y` of a cube. -/
theorem rotate_round_trip (center : Vec3) (piece : List Cube) (hc : IsLattice center)
    (hp : ∀ cube ∈ piece, IsLattice cube.pos) (hcr : InRange ROTATE_RANGE center)
    (hpr : ∀ cube ∈ piece, InRange ROTATE_RANGE cube.pos) :
    rotatePiece (-1) center (rotatePiece 1 center piece) = piece ∧
    rotatePiece 1 center (rotatePiece (-1) center piece) = piece ∧
    (rotatePiece 1 center piece).map (fun cube => cube.pos.y) =
      piece.map (fun cube => cube.pos.y) ∧
    (rotatePiece (-1) center piece).map (fun cube => cube.pos.y) =
      piece.map (fun cube => cube.pos.y) := by
  have hoff := offsets_of_inRange hcr hpr
  have h1 := rotatePiece_back 1 (by norm_num) center hc piece hp hoff
  have h2 := rotatePiece_back (-1) (by norm_num) center hc piece hp hoff
  have h3 := rotatePiece_height 1 center hc piece hp hoff
  have h4 := rotatePiece_height (-1) center hc piece hp hoff
  push_cast at h1 h2 h3 h4
  exact ⟨h1, h2, h3, h4⟩

/-- C9 on the T-shaped piece at its spawn position: the hypotheses hold, the
+90 step moves the arm cubes onto the depth axis, and the -90 step undoes it. -/
theorem rotate_round_trip_witness :
    (IsLattice ⟨5, 18, 5⟩ ∧ (∀ cube ∈ spawnedT, IsLattice cube.pos) ∧
      InRange ROTATE_RANGE ⟨5, 18, 5⟩ ∧ ∀ cube ∈ spawnedT, InRange ROTATE_RANGE cube.pos) ∧
    rotatePiece 1 ⟨5, 18, 5⟩ spawnedT =
      [plainCube 5 18 5, plainCube 5 18 4, plainCube 5 18 6, plainCube 5 17 5] ∧
    rotatePiece (-1) ⟨5, 18, 5⟩ (rotatePiece 1 ⟨5, 18, 5⟩ spawnedT) = spawnedT :=
  ⟨⟨by decide!, by decide!, by decide!, by decide!⟩, by decide!,
   (rotate_round_trip ⟨5, 18, 5⟩ spawnedT (by decide!) (by decide!) (by decide!)
     (by decide!)).1⟩

/-! ## The hard drop -/

theorem loweredBy_zero (piece : List Cube) : loweredBy 0 piece = piece := by
  unfold loweredBy
  conv_rhs => rw [← List.map_id piece]
  apply List.map_congr_left
  intro b _
  simp

theorem loweredBy_lowerPiece (k : Nat) (piece : List Cube) :
    loweredBy k (lowerPiece piece) = loweredBy (k + 1) piece := by
  unfold loweredBy lowerPiece
  rw [List.map_map]
  apply List.map_congr_left
  intro b _
  simp only [Function.comp_apply]
  congr 2
  push_cast; ring

theorem centerLoweredBy_zero (c : Vec3) : centerLoweredBy 0 c = c := by
  simp [centerLoweredBy]

theorem centerLoweredBy_lowerCenter (k : Nat) (c : Vec3) :
    centerLoweredBy k (lowerCenter c) = centerLoweredBy (k + 1) c := by
  unfold centerLoweredBy lowerCenter
  simp only
  congr 1
  push_cast; ring

theorem hardDropLoop_fuel_succ (grid : List Cube) : ∀ (fuel : Nat) (piece : List Cube)
    (center : Vec3) (res : List Cube × Vec3),
    hardDropLoop grid fuel piece center = some res →
    hardDropLoop grid (fuel + 1) piece center = some res := by
  intro fuel
  induction fuel with
  | zero => intro piece center res h; simp [hardDropLoop] at h
  | succ f ih =>
    intro piece center res h
    rw [hardDropLoop] at h
    rw [hardDropLoop]
    cases hc : checkCollision grid down piece with
    | true => simpa [hc] using h
    | false =>
      simp only [hc, Bool.not_false, if_true] at h ⊢
      exact ih _ _ _ h

theorem hardDropLoop_fuel_le (grid : List Cube) {fuel fuel2 : Nat} (hle : fuel ≤ fuel2)
    (piece : List Cube) (center : Vec3) (res : List Cube × Vec3)
    (h : hardDropLoop grid fuel piece center = some res) :
    hardDropLoop grid fuel2 piece center = some res := by
  induction hle with
  | refl => exact h
  | step _ ih => exact hardDropLoop_fuel_succ _ _ _ _ _ ih

theorem hardDropLoop_blocked (grid : List Cube) (fuel : Nat) (piece : List Cube) (center : Vec3)
    (hc : checkCollision grid down piece = true) :
    hardDropLoop grid (fuel + 1) piece center = some (piece, center) := by
  rw [hardDropLoop]; simp [hc]

theorem hardDropLoop_free (grid : List Cube) (fuel : Nat) (piece : List Cube) (center : Vec3)
    (hc : checkCollision grid down piece = false) :
    hardDropLoop grid (fuel + 1) piece center =
      hardDropLoop grid fuel (lowerPiece piece) (lowerCenter center) := by
  rw [hardDropLoop]; simp [hc]

/-- A piece that may still move down has its first cube at height 1 or more. -/
theorem height_of_free (grid : List Cube) (c : Cube) (rest : List Cube)
    (hc : checkCollision grid down (c :: rest) = false) : 1 ≤ c.pos.y := by
  rw [checkCollision_cons] at hc
  simp only [Bool.or_eq_false_iff] at hc
  have ho := hc.1.1
  unfold outOfField at ho
  simp only [Bool.or_eq_false_iff, decide_eq_false_iff_not, not_lt] at ho
  have hy := ho.2
  simp only [Vec3.add, down] at hy
  linarith

theorem dropBound_lowerPiece (c : Cube) (rest : List Cube) (h1 : 1 ≤ c.pos.y) :
    dropBound (lowerPiece (c :: rest)) + 1 = dropBound (c :: rest) := by
  simp only [lowerPiece, List.map_cons, dropBound]
  have hceil : ⌈c.pos.y - 1⌉ = ⌈c.pos.y⌉ - 1 := Int.ceil_sub_one _
  have hpos : 1 ≤ ⌈c.pos.y⌉ := by
    have : (0 : ℚ) < c.pos.y := by linarith
    have := Int.ceil_pos.mpr this
    omega
  rw [hceil]; omega

theorem lowerPiece_ne_nil {piece : List Cube} (h : piece ≠ []) : lowerPiece piece ≠ [] := by
  unfold lowerPiece
  simpa using h

theorem dropBound_pos {piece : List Cube} (h : piece ≠ []) : 1 ≤ dropBound piece := by
  cases piece with
  | nil => exact absurd rfl h
  | cons c rest => simp [dropBound]

/-- The descent of the hard drop, by induction on the bound. -/
theorem hardDropLoop_descends (grid : List Cube) (n : Nat) : ∀ (piece : List Cube) (center : Vec3),
    piece ≠ [] → dropBound piece ≤ n + 1 →
    ∃ k, k ≤ n ∧
      hardDropLoop grid (k + 1) piece center =
        some (loweredBy k piece, centerLoweredBy k center) ∧
      (∀ j, j < k → checkCollision grid down (loweredBy j piece) = false) ∧
      checkCollision grid down (loweredBy k piece) = true := by
  induction n with
  | zero =>
    intro piece center hne hb
    cases piece with
    | nil => exact absurd rfl hne
    | cons c rest =>
      by_cases hc : checkCollision grid down (c :: rest) = true
      · refine ⟨0, le_refl _, ?_, ?_, ?_⟩
        · rw [loweredBy_zero, centerLoweredBy_zero]; exact hardDropLoop_blocked _ _ _ _ hc
        · intro j hj; omega
        · rw [loweredBy_zero]; exact hc
      · have hc2 : checkCollision grid down (c :: rest) = false := by simpa using hc
        have h1 := height_of_free grid c rest hc2
        have := dropBound_lowerPiece c rest h1
        have := dropBound_pos (lowerPiece_ne_nil hne)
        omega
  | succ n ih =>
    intro piece center hne hb
    cases piece with
    | nil => exact absurd rfl hne
    | cons c rest =>
      by_cases hc : checkCollision grid down (c :: rest) = true
      · refine ⟨0, Nat.zero_le _, ?_, ?_, ?_⟩
        · rw [loweredBy_zero, centerLoweredBy_zero]; exact hardDropLoop_blocked _ _ _ _ hc
        · intro j hj; omega
        · rw [loweredBy_zero]; exact hc
      · have hc2 : checkCollision grid down (c :: rest) = false := by simpa using hc
        have h1 := height_of_free grid c rest hc2
        have hbd := dropBound_lowerPiece c rest h1
        obtain ⟨k, hk, hrun, hfree, hblock⟩ := ih (lowerPiece (c :: rest)) (lowerCenter center)
          (lowerPiece_ne_nil hne) (by omega)
        refine ⟨k + 1, by omega, ?_, ?_, ?_⟩
        · rw [hardDropLoop_free _ _ _ _ hc2, hrun, loweredBy_lowerPiece,
            centerLoweredBy_lowerCenter]
        · intro j hj
          cases j with
          | zero => rw [loweredBy_zero]; exact hc2
          | succ i =>
            rw [← loweredBy_lowerPiece]
            exact hfree i (by omega)
        · rw [← loweredBy_lowerPiece]; exact hblock

theorem mergePiece_returns (s : State) (fuel : Nat)
    (hf : (s.grid ++ s.currentPiece).length + 21 ≤ fuel) : ∃ t, mergePiece fuel s = some t := by
  by_cases hr : ReachesLimit s.currentPiece
  · exact ⟨_, mergePiece_of_reaches hr fuel⟩
  · cases hg : s.gameOver with
    | true =>
      refine ⟨{ s with grid := s.grid ++ s.currentPiece }, ?_⟩
      unfold mergePiece
      rw [lockCubes_eq, hg]
      simp [hg]
    | false =>
      obtain ⟨res, h1, _⟩ := clearLoop_terminates fuel 0
        { grid := s.grid ++ s.currentPiece, score := wrapInt (s.score + 10), cleared := 0 } (le_refl _)
        (by decide) (by simp only [GRID_H]; omega) (fun k h0 hk => by omega)
      refine ⟨{ s with grid := res.grid, score := res.score }, ?_⟩
      rw [mergePiece_of_low hg hr]
      unfold clearLines
      rw [h1]
      simp [hg]

theorem tick_blocked (fuel r : Nat) (s : State) (hp : s.paused = false) (hg : s.gameOver = false)
    (hc : checkCollision s.grid down s.currentPiece = true) :
    tick fuel r s =
      match mergePiece fuel s with
      | none => none
      | some s3 => if !s3.gameOver then some (spawnPiece r s3) else some s3 := by
  unfold tick
  rw [hp, hg, hc]
  simp

theorem loweredBy_length (k : Nat) (piece : List Cube) :
    (loweredBy k piece).length = piece.length := by
  simp [loweredBy]

/-! ## `spawnPiece` -/

theorem spawnPiece_mod (r : Nat) : spawnPiece r = spawnPiece (r % 7) := by
  funext s
  unfold spawnPiece
  have h7 : TETROMINOES.length = 7 := rfl
  simp only [h7, Nat.mod_mod]

theorem tick_mod (fuel r : Nat) (s : State) : tick fuel r s = tick fuel (r % 7) s := by
  unfold tick
  rw [spawnPiece_mod r]

theorem key_callback_mod (fuel : Nat) (key : Key) (action : Action) (r : Nat) (s : State) :
    key_callback fuel key action r s = key_callback fuel key action (r % 7) s := by
  unfold key_callback keyPlaying hardDropBlock resetBlock
  rw [spawnPiece_mod r]

theorem initState_mod (r : Nat) : initState r = initState (r % 7) := by
  unfold initState
  rw [spawnPiece_mod r]


theorem drop_scenario_loop : ∀ i, i < 7 →
    hardDropLoop [] 40 (initState i).currentPiece (initState i).pieceCenter =
      some (loweredBy (if i = 0 then 18 else 17) (initState i).currentPiece,
            centerLoweredBy (if i = 0 then 18 else 17) (initState i).pieceCenter) ∧
    (∀ c ∈ loweredBy (if i = 0 then 18 else 17) (initState i).currentPiece, 0 ≤ c.pos.y) ∧
    ∃ c ∈ loweredBy (if i = 0 then 18 else 17) (initState i).currentPiece, c.pos.y = 0 := by
  decide!

set_option synthInstance.maxSize 2000 in
set_option synthInstance.maxHeartbeats 200000 in
theorem drop_scenario_lock : ∀ i, i < 7 → ∀ j, j < 7 →
    ∃ t ∈ key_callback 40 Key.ENTER Action.PRESS j (initState i),
      t.grid = loweredBy (if i = 0 then 18 else 17) (initState i).currentPiece ∧
      t.grid.length = 4 ∧ (∀ c ∈ t.grid, c.pos.y < (GAME_OVER_HEIGHT : ℚ)) ∧
      t.gameOver = false := by
  decide!

/-- With fuel `dropBound`, the descent loop returns the piece lowered by some `k`. -/
theorem hardDropLoop_returns (grid piece : List Cube) (center : Vec3) (hne : piece ≠ []) :
    ∃ k : Nat,
      (∀ fuel, dropBound piece ≤ fuel →
        hardDropLoop grid fuel piece center =
          some (loweredBy k piece, centerLoweredBy k center)) ∧
      (∀ j, j < k → checkCollision grid down (loweredBy j piece) = false) ∧
      checkCollision grid down (loweredBy k piece) = true := by
  have hpos := dropBound_pos hne
  obtain ⟨k, hk, hrun, hfree, hblock⟩ := hardDropLoop_descends grid (dropBound piece - 1)
    piece center hne (by omega)
  refine ⟨k, ?_, hfree, hblock⟩
  intro fuel hf
  exact hardDropLoop_fuel_le _ (by omega) _ _ _ hrun

/-- C10: the descent loop of the hard drop returns for every grid and every
non-empty piece whose cubes are not higher than `2^23` and whose pivot is a
lattice point within `2^23` (where each `float` step down is exact; fuel
`dropBound` is enough): the piece and the pivot have moved
straight down by some `k`, each of the `k` steps was accepted by
`checkCollision` and one more step is rejected; the callback then does exactly
what a blocked gravity tick does on the dropped piece, and it returns.  On the
empty grid a freshly spawned piece descends 17 or 18 steps, to lowest height 0,
and the lock leaves a grid of exactly these 4 cubes, all below height 14, with
`gameOver` false. -/
theorem hardDrop_descends (s : State) (hne : s.currentPiece ≠ [])
    (_hheights : ∀ c ∈ s.currentPiece, c.pos.y ≤ DROP_RANGE)
    (_hlattice : IsLattice s.pieceCenter) (_hrange : InRange DROP_RANGE s.pieceCenter) :
    (∃ k : Nat,
      (∀ fuel, dropBound s.currentPiece ≤ fuel →
        hardDropLoop s.grid fuel s.currentPiece s.pieceCenter =
          some (loweredBy k s.currentPiece, centerLoweredBy k s.pieceCenter)) ∧
      (∀ j, j < k → checkCollision s.grid down (loweredBy j s.currentPiece) = false) ∧
      checkCollision s.grid down (loweredBy k s.currentPiece) = true ∧
      (∀ fuel action r, dropBound s.currentPiece ≤ fuel → action ≠ Action.RELEASE →
        s.paused = false → s.gameOver = false →
        key_callback fuel Key.ENTER action r s =
          tick fuel r { s with currentPiece := loweredBy k s.currentPiece,
                               pieceCenter := centerLoweredBy k s.pieceCenter }) ∧
      (∀ fuel action r, dropBound s.currentPiece ≤ fuel →
        (s.grid ++ s.currentPiece).length + 21 ≤ fuel → action ≠ Action.RELEASE →
        s.paused = false → s.gameOver = false →
        ∃ t, key_callback fuel Key.ENTER action r s = some t)) ∧
    (∀ r r2 : Nat, ∃ k : Nat, (k = 17 ∨ k = 18) ∧
      hardDropLoop [] 40 (initState r).currentPiece (initState r).pieceCenter =
        some (loweredBy k (initState r).currentPiece,
              centerLoweredBy k (initState r).pieceCenter) ∧
      (∀ c ∈ loweredBy k (initState r).currentPiece, 0 ≤ c.pos.y) ∧
      (∃ c ∈ loweredBy k (initState r).currentPiece, c.pos.y = 0) ∧
      ∃ t, key_callback 40 Key.ENTER Action.PRESS r2 (initState r) = some t ∧
        t.grid = loweredBy k (initState r).currentPiece ∧ t.grid.length = 4 ∧
        (∀ c ∈ t.grid, c.pos.y < (GAME_OVER_HEIGHT : ℚ)) ∧ t.gameOver = false) := by
  constructor
  · obtain ⟨k, hall, hfree, hblock⟩ := hardDropLoop_returns s.grid s.currentPiece s.pieceCenter hne
    have hkey : ∀ fuel action r, dropBound s.currentPiece ≤ fuel → action ≠ Action.RELEASE →
        s.paused = false → s.gameOver = false →
        key_callback fuel Key.ENTER action r s =
          tick fuel r { s with currentPiece := loweredBy k s.currentPiece,
                               pieceCenter := centerLoweredBy k s.pieceCenter } := by
      intro fuel action r hf ha hp hg
      rw [hardDrop_enter fuel action r s ha hp hg, hall fuel hf]
      rw [tick_blocked fuel r ⟨s.grid, loweredBy k s.currentPiece, centerLoweredBy k s.pieceCenter,
        s.paused, s.gameOver, s.score, s.currentMaterialIndex⟩ hp hg hblock]
    refine ⟨k, hall, hfree, hblock, hkey, ?_⟩
    intro fuel action r hf hf2 ha hp hg
    rw [hkey fuel action r hf ha hp hg,
      tick_blocked fuel r ⟨s.grid, loweredBy k s.currentPiece, centerLoweredBy k s.pieceCenter,
        s.paused, s.gameOver, s.score, s.currentMaterialIndex⟩ hp hg hblock]
    obtain ⟨t, ht⟩ := mergePiece_returns
      ⟨s.grid, loweredBy k s.currentPiece, centerLoweredBy k s.pieceCenter,
        s.paused, s.gameOver, s.score, s.currentMaterialIndex⟩ fuel
      (by simp only [List.length_append, loweredBy_length] at hf2 ⊢; exact hf2)
    rw [ht]
    simp only
    split
    · exact ⟨_, rfl⟩
    · exact ⟨_, rfl⟩
  · intro r r2
    have h7 : r % 7 < 7 := Nat.mod_lt _ (by norm_num)
    have h72 : r2 % 7 < 7 := Nat.mod_lt _ (by norm_num)
    obtain ⟨h1, h2, h3⟩ := drop_scenario_loop (r % 7) h7
    obtain ⟨t, ht, h4⟩ := drop_scenario_lock (r % 7) h7 (r2 % 7) h72
    rw [initState_mod r, key_callback_mod _ _ _ r2]
    refine ⟨if r % 7 = 0 then 18 else 17, ?_, h1, h2, h3, t, ht, h4⟩
    split <;> simp

/-- C10 on the state right after the program spawned the T-shaped piece: the
hypotheses hold and the hard drop ends 17 units lower, on the floor. -/
theorem hardDrop_descends_witness :
    ((initState 3).currentPiece ≠ [] ∧
      (∀ c ∈ (initState 3).currentPiece, c.pos.y ≤ DROP_RANGE) ∧
      IsLattice (initState 3).pieceCenter ∧ InRange DROP_RANGE (initState 3).pieceCenter) ∧
    hardDropLoop [] 19 (initState 3).currentPiece (initState 3).pieceCenter =
      some (loweredBy 17 (initState 3).currentPiece,
            centerLoweredBy 17 (initState 3).pieceCenter) ∧
    ((∃ k : Nat,
      (∀ fuel, dropBound (initState 3).currentPiece ≤ fuel →
        hardDropLoop (initState 3).grid fuel (initState 3).currentPiece
            (initState 3).pieceCenter =
          some (loweredBy k (initState 3).currentPiece,
                centerLoweredBy k (initState 3).pieceCenter)) ∧
      (∀ j, j < k →
        checkCollision (initState 3).grid down (loweredBy j (initState 3).currentPiece) =
          false) ∧
      checkCollision (initState 3).grid down (loweredBy k (initState 3).currentPiece) = true ∧
      (∀ fuel action r, dropBound (initState 3).currentPiece ≤ fuel →
        action ≠ Action.RELEASE → (initState 3).paused = false →
        (initState 3).gameOver = false →
        key_callback fuel Key.ENTER action r (initState 3) =
          tick fuel r { initState 3 with
            currentPiece := loweredBy k (initState 3).currentPiece,
            pieceCenter := centerLoweredBy k (initState 3).pieceCenter }) ∧
      (∀ fuel action r, dropBound (initState 3).currentPiece ≤ fuel →
        ((initState 3).grid ++ (initState 3).currentPiece).length + 21 ≤ fuel →
        action ≠ Action.RELEASE → (initState 3).paused = false →
        (initState 3).gameOver = false →
        ∃ t, key_callback fuel Key.ENTER action r (initState 3) = some t))) :=
  ⟨⟨by decide!, by decide!, by decide!, by decide!⟩, by decide!,
   (hardDrop_descends (initState 3) (by decide!) (by decide!) (by decide!) (by decide!)).1⟩

/-! ## Reset -/

theorem checkCollision_congr_pos (grid : List Cube) (d : Vec3) : ∀ (p q : List Cube),
    p.map (fun c => c.pos) = q.map (fun c => c.pos) →
    checkCollision grid d p = checkCollision grid d q := by
  intro p
  induction p with
  | nil =>
    intro q h
    cases q with
    | nil => rfl
    | cons b q => simp at h
  | cons a p ih =>
    intro q h
    cases q with
    | nil => simp at h
    | cons b q =>
      simp only [List.map_cons, List.cons.injEq] at h
      rw [checkCollision_cons, checkCollision_cons, h.1, ih q h.2]

theorem spawnCubes_pos (center : Vec3) (t : Nat) (m : PBRMaterial) :
    (spawnCubes center t m).map (fun c => c.pos) =
      (TETROMINOES.getD t []).map fun o => center.add o := by
  unfold spawnCubes
  rw [List.map_map]
  rfl

theorem spawnCenter_eq : spawnCenter = ⟨5, 18, 5⟩ := by decide!

theorem spawn_free_on_empty : ∀ t, t < 7 →
    checkCollision [] ⟨0, 0, 0⟩ (spawnCubes spawnCenter t (currentMaterial 0)) = false ∧
    (TETROMINOES.getD t []).length = 4 := by
  decide!

theorem spawnCubes_free (t : Nat) (ht : t < 7) (m : PBRMaterial) :
    checkCollision [] ⟨0, 0, 0⟩ (spawnCubes spawnCenter t m) = false := by
  rw [checkCollision_congr_pos [] ⟨0, 0, 0⟩ _ (spawnCubes spawnCenter t (currentMaterial 0))
    (by rw [spawnCubes_pos, spawnCubes_pos])]
  exact (spawn_free_on_empty t ht).1

theorem spawnCubes_length (center : Vec3) (t : Nat) (ht : t < 7) (m : PBRMaterial) :
    (spawnCubes center t m).length = 4 := by
  unfold spawnCubes
  rw [List.length_map]
  exact (spawn_free_on_empty t ht).2

theorem spawnPiece_on_empty (r : Nat) (s : State) (hg : s.grid = []) :
    spawnPiece r s =
      { s with currentPiece := spawnCubes spawnCenter (r % 7)
                 (currentMaterial s.currentMaterialIndex),
               pieceCenter := spawnCenter } := by
  unfold spawnPiece
  have h7 : TETROMINOES.length = 7 := rfl
  simp only [h7, hg, spawnCubes_free (r % 7) (Nat.mod_lt _ (by norm_num)),
    Bool.false_eq_true, if_false]

theorem keyPlaying_R (fuel : Nat) (action : Action) (r : Nat) (s : State) :
    keyPlaying fuel Key.R action r s = some s := by
  unfold keyPlaying
  rw [moveBlock_of_zero Key.R s (by decide!)]
  simp [hardDropBlock, rotateBlock]

/-- C7: from every state and for every value of `rand ()`, the key R leaves
score 0, `gameOver` and `paused` false, an empty grid, the pivot `(5, 18, 5)`
and an active piece of exactly 4 cubes at the pivot plus the offsets of the
archetype `rand () % 7`, which `checkCollision` accepts. -/
theorem reset_spawns (s : State) (fuel r : Nat) :
    ∃ piece : List Cube,
      key_callback fuel Key.R Action.PRESS r s =
        some { grid := [], currentPiece := piece, pieceCenter := ⟨5, 18, 5⟩, paused := false,
               gameOver := false, score := 0,
               currentMaterialIndex := s.currentMaterialIndex } ∧
      piece.length = 4 ∧
      piece.map (fun c => c.pos) =
        (TETROMINOES.getD (r % 7) []).map (fun o => (Vec3.mk 5 18 5).add o) ∧
      checkCollision [] ⟨0, 0, 0⟩ piece = false := by
  have h7 : r % 7 < 7 := Nat.mod_lt _ (by norm_num)
  refine ⟨spawnCubes spawnCenter (r % 7) (currentMaterial s.currentMaterialIndex), ?_,
    spawnCubes_length _ _ h7 _, by rw [spawnCubes_pos, spawnCenter_eq], spawnCubes_free _ h7 _⟩
  unfold key_callback resetBlock pauseBlock materialBlock
  rw [spawnPiece_on_empty r _ rfl]
  simp only [reduceCtorEq, if_false, and_self, if_true, false_and, Bool.or_self,
    Bool.false_eq_true]
  rw [keyPlaying_R, spawnCenter_eq]

/-! ## Commands after the game is over -/

/-- C6, as the program behaves: while `gameOver` is true, a key event other than
a press of R leaves grid, active piece, pivot, score and `gameOver` unchanged;
a press of P still flips `paused`, and a press of M still advances the material
index (modulo 5) without recolouring the piece. -/
theorem gameOver_commands (s : State) (fuel : Nat) (key : Key) (action : Action) (r : Nat)
    (hover : s.gameOver = true) (hkey : ¬(key = Key.R ∧ action = Action.PRESS)) :
    key_callback fuel key action r s =
      some { s with
        paused := if key = Key.P ∧ action = Action.PRESS then !s.paused else s.paused,
        currentMaterialIndex :=
          if key = Key.M ∧ action = Action.PRESS then (s.currentMaterialIndex + 1) % 5
          else s.currentMaterialIndex } := by
  have h5 : materials.length = 5 := rfl
  obtain ⟨grid, piece, center, paused, gameOver, score, idx⟩ := s
  simp only at hover
  subst hover
  unfold key_callback resetBlock pauseBlock materialBlock
  cases action <;> cases key <;>
    simp [h5] at hkey ⊢

/-- C6 as stated fails: in a finished game a press of P changes `paused` and a
press of M changes the material index. -/
theorem gameOver_commands_counterexample :
    overState.gameOver = true ∧
    key_callback 0 Key.P Action.PRESS 0 overState = some { overState with paused := true } ∧
    key_callback 0 Key.M Action.PRESS 0 overState =
      some { overState with currentMaterialIndex := 1 } ∧
    ¬(∀ key action, key ≠ Key.R → key ≠ Key.ESCAPE →
        key_callback 0 key action 0 overState = some overState) := by
  refine ⟨by decide!, by decide!, by decide!, ?_⟩
  intro h
  have h1 := h Key.P Action.PRESS (by decide) (by decide)
  revert h1
  decide!

/-- The behaviour of C6 as amended, on a finished game: a press of P. -/
theorem gameOver_commands_witness :
    (overState.gameOver = true ∧ ¬(Key.P = Key.R ∧ Action.PRESS = Action.PRESS)) ∧
    key_callback 7 Key.P Action.PRESS 2 overState =
      some { overState with
        paused := if Key.P = Key.P ∧ Action.PRESS = Action.PRESS then !overState.paused
                  else overState.paused,
        currentMaterialIndex :=
          if Key.P = Key.M ∧ Action.PRESS = Action.PRESS
          then (overState.currentMaterialIndex + 1) % 5
          else overState.currentMaterialIndex } :=
  ⟨⟨by decide!, by decide⟩,
   gameOver_commands overState 7 Key.P Action.PRESS 2 (by decide!) (by decide)⟩

/-! ## Cells of lattice cubes -/

theorem checkCollision_eq_any (grid : List Cube) (d : Vec3) (piece : List Cube) :
    checkCollision grid d piece =
      piece.any fun c => outOfField (c.pos.add d) || hitsLanded grid (c.pos.add d) := by
  induction piece with
  | nil => rfl
  | cons c rest ih => rw [checkCollision_cons, ih, List.any_cons]

theorem add_zero_vec (p : Vec3) : p.add ⟨0, 0, 0⟩ = p := by
  simp [Vec3.add]

theorem cellOf_mk (a b c : Int) : cellOf ⟨(a : ℚ), (b : ℚ), (c : ℚ)⟩ = (a, b, c) := by
  simp [cellOf, cround_intCast]

theorem eq_of_cellOf_eq {p q : Vec3} (hp : IsLattice p) (hq : IsLattice q)
    (h : cellOf p = cellOf q) : p = q := by
  obtain ⟨a, b, c, rfl⟩ := hp.exists
  obtain ⟨i, j, k, rfl⟩ := hq.exists
  rw [cellOf_mk, cellOf_mk] at h
  simp only [Prod.mk.injEq] at h
  obtain ⟨h1, h2, h3⟩ := h
  rw [h1, h2, h3]

theorem isLattice_add {p d : Vec3} (hp : IsLattice p) (hd : IsLattice d) :
    IsLattice (p.add d) := by
  obtain ⟨a, b, c, rfl⟩ := hp.exists
  obtain ⟨i, j, k, rfl⟩ := hd.exists
  have := isLattice_mk (a + i) (b + j) (c + k)
  push_cast at this
  exact this

/-- A list keeps "no two elements on one cell" under any map that does not
merge cells. -/
theorem nodup_map_of_imp {α β γ : Type} (f : α → β) (g : α → γ) (l : List α)
    (h : (l.map f).Nodup) (himp : ∀ x ∈ l, ∀ y ∈ l, g x = g y → f x = f y) :
    (l.map g).Nodup :=
  (List.Nodup.of_map f h).map_on fun x hx y hy hxy =>
    List.inj_on_of_nodup_map h hx hy (himp x hx y hy hxy)

theorem noOverlap_map (op : Cube → Cube) (l : List Cube) (h : NoOverlap l)
    (himp : ∀ x ∈ l, ∀ y ∈ l, cell (op x) = cell (op y) → cell x = cell y) :
    NoOverlap (l.map op) := by
  unfold NoOverlap
  rw [List.map_map]
  exact nodup_map_of_imp cell (cell ∘ op) l h himp

theorem noOverlap_congr_pos {p q : List Cube}
    (h : p.map (fun c => c.pos) = q.map (fun c => c.pos)) (hp : NoOverlap p) : NoOverlap q := by
  unfold NoOverlap at hp ⊢
  have e : ∀ l : List Cube, l.map cell = (l.map fun c => c.pos).map cellOf := by
    intro l; rw [List.map_map]; rfl
  rw [e] at hp ⊢
  rw [← h]; exact hp

theorem lattice_congr_pos {p q : List Cube}
    (h : p.map (fun c => c.pos) = q.map (fun c => c.pos))
    (hp : ∀ c ∈ p, IsLattice c.pos) : ∀ c ∈ q, IsLattice c.pos := by
  intro c hc
  have hm : c.pos ∈ q.map (fun c => c.pos) := List.mem_map.mpr ⟨c, hc, rfl⟩
  rw [← h] at hm
  obtain ⟨c2, hc2, he⟩ := List.mem_map.mp hm
  rw [← he]; exact hp c2 hc2

/-! ### Translation -/

theorem translatePiece_lattice {piece : List Cube} {d : Vec3}
    (hp : ∀ c ∈ piece, IsLattice c.pos) (hd : IsLattice d) :
    ∀ c ∈ translatePiece piece d, IsLattice c.pos := by
  intro c hc
  unfold translatePiece at hc
  obtain ⟨b, hb, rfl⟩ := List.mem_map.mp hc
  exact isLattice_add (hp b hb) hd

theorem add_right_cancel_vec {p q d : Vec3} (h : p.add d = q.add d) : p = q := by
  cases p; cases q
  simp only [Vec3.add, Vec3.mk.injEq] at h ⊢
  obtain ⟨h1, h2, h3⟩ := h
  exact ⟨by linarith, by linarith, by linarith⟩

theorem translatePiece_noOverlap {piece : List Cube} {d : Vec3}
    (hp : ∀ c ∈ piece, IsLattice c.pos) (hd : IsLattice d) (hn : NoOverlap piece) :
    NoOverlap (translatePiece piece d) := by
  unfold translatePiece
  apply noOverlap_map _ _ hn
  intro x hx y hy hxy
  have := eq_of_cellOf_eq (isLattice_add (hp x hx) hd) (isLattice_add (hp y hy) hd) hxy
  unfold cell
  rw [add_right_cancel_vec this]

theorem checkCollision_translate (grid : List Cube) (piece : List Cube) (d : Vec3) :
    checkCollision grid ⟨0, 0, 0⟩ (translatePiece piece d) = checkCollision grid d piece := by
  rw [checkCollision_eq_any, checkCollision_eq_any]
  unfold translatePiece
  rw [List.any_map]
  congr 1
  funext c
  simp only [Function.comp_apply, add_zero_vec]

theorem lowerPiece_eq_translate (piece : List Cube) :
    lowerPiece piece = translatePiece piece down := by
  unfold lowerPiece translatePiece
  apply List.map_congr_left
  intro b _
  simp only [Vec3.add, down]
  congr 2 <;> ring

theorem lowerCenter_eq_add (c : Vec3) : lowerCenter c = c.add down := by
  simp only [lowerCenter, Vec3.add, down]
  congr 1 <;> ring

theorem down_lattice : IsLattice down := by decide!

theorem moveDirOf_lattice (key : Key) : IsLattice (moveDirOf key) := by
  cases key <;> decide!

/-! ### Rotation -/

theorem roundVec_lattice (v : Vec3) : IsLattice (roundVec v) := by
  simp [IsLattice, roundVec, cround_intCast]

theorem rotatePiece_lattice (s : ℚ) {center : Vec3} {piece : List Cube}
    (hc : IsLattice center) :
    ∀ c ∈ rotatePiece s center piece, IsLattice c.pos := by
  intro c hcm
  unfold rotatePiece at hcm
  obtain ⟨b, hb, rfl⟩ := List.mem_map.mp hcm
  exact isLattice_add hc (roundVec_lattice _)

theorem offsetsWithin_mono {B C : ℚ} (h : B ≤ C) {center : Vec3} {piece : List Cube}
    (hoff : OffsetsWithin B center piece) : OffsetsWithin C center piece :=
  fun c hc => ⟨(hoff c hc).1.trans h, (hoff c hc).2.trans h⟩

theorem rotatePiece_noOverlap (s : Int) (hs : s * s = 1) {center : Vec3} {piece : List Cube}
    (hc : IsLattice center) (hp : ∀ c ∈ piece, IsLattice c.pos)
    (hoff : OffsetsWithin 2097152 center piece) (hn : NoOverlap piece) :
    NoOverlap (rotatePiece (s : ℚ) center piece) := by
  have hl := @rotatePiece_lattice (s : ℚ) center piece hc
  unfold rotatePiece at hl ⊢
  apply noOverlap_map _ _ hn
  intro x hx y hy hxy
  have hx2 := hl _ (List.mem_map.mpr ⟨x, hx, rfl⟩)
  have hy2 := hl _ (List.mem_map.mpr ⟨y, hy, rfl⟩)
  have hpos := eq_of_cellOf_eq hx2 hy2 hxy
  simp only at hpos
  have hbx := rotate_back s hs center hc x (hp x hx) (hoff x hx)
  have hby := rotate_back s hs center hc y (hp y hy) (hoff y hy)
  rw [hpos, hby] at hbx
  unfold cell
  rw [hbx]

/-! ### Offsets from the pivot -/

/-- A rotation step keeps the offsets of the cubes from the pivot within the
same bound: it exchanges the `x` and the `z` offset up to sign. -/
theorem rotatePiece_near (s : Int) (hs : s * s = 1) {B : ℚ} (hB : B ≤ 2097152)
    {center : Vec3} {piece : List Cube}
    (hc : IsLattice center) (hp : ∀ c ∈ piece, IsLattice c.pos)
    (hoff : OffsetsWithin B center piece) :
    OffsetsWithin B center (rotatePiece (s : ℚ) center piece) := by
  intro c hcm
  unfold rotatePiece at hcm
  obtain ⟨b, hb, rfl⟩ := List.mem_map.mp hcm
  have hob := hoff b hb
  obtain ⟨i, j, k, rfl⟩ := hc.exists
  obtain ⟨a, b2, c2, hpos⟩ := (hp b hb).exists
  rw [hpos] at hob
  simp only at hob
  have hx : |a - i| ≤ 2097152 := by exact_mod_cast hob.1.trans hB
  have hz : |c2 - k| ≤ 2097152 := by exact_mod_cast hob.2.trans hB
  simp only
  rw [hpos, rotate_lattice s a b2 c2 i j k hx hz]
  simp only
  rcases unit_cases hs with h | h <;> rw [h] <;> push_cast
  · constructor
    · have e : (i : ℚ) + 1 * ((c2 : ℚ) - k) - i = (c2 : ℚ) - k := by ring
      rw [e]; exact hob.2
    · have e : (k : ℚ) - 1 * ((a : ℚ) - i) - k = -((a : ℚ) - i) := by ring
      rw [e, abs_neg]; exact hob.1
  · constructor
    · have e : (i : ℚ) + -1 * ((c2 : ℚ) - k) - i = -((c2 : ℚ) - k) := by ring
      rw [e, abs_neg]; exact hob.2
    · have e : (k : ℚ) - -1 * ((a : ℚ) - i) - k = (a : ℚ) - i := by ring
      rw [e]; exact hob.1

theorem translatePiece_near {B : ℚ} {center : Vec3} {piece : List Cube} (d : Vec3)
    (hoff : OffsetsWithin B center piece) :
    OffsetsWithin B (center.add d) (translatePiece piece d) := by
  intro c hcm
  unfold translatePiece at hcm
  obtain ⟨b, hb, rfl⟩ := List.mem_map.mp hcm
  have hob := hoff b hb
  simp only [Vec3.add]
  have e1 : b.pos.x + d.x - (center.x + d.x) = b.pos.x - center.x := by ring
  have e2 : b.pos.z + d.z - (center.z + d.z) = b.pos.z - center.z := by ring
  rw [e1, e2]; exact hob

theorem offsetsWithin_congr_pos {B : ℚ} {center : Vec3} {p q : List Cube}
    (h : p.map (fun c => c.pos) = q.map (fun c => c.pos))
    (hp : OffsetsWithin B center p) : OffsetsWithin B center q := by
  intro c hc
  have hm : c.pos ∈ q.map (fun c => c.pos) := List.mem_map.mpr ⟨c, hc, rfl⟩
  rw [← h] at hm
  obtain ⟨c2, hc2, he⟩ := List.mem_map.mp hm
  rw [← he]; exact hp c2 hc2

/-! ### The layer clear keeps the grid well formed -/

theorem lowerCube_mk (y : Int) (c : Cube) (a b k : Int)
    (h : c.pos = ⟨(a : ℚ), (b : ℚ), (k : ℚ)⟩) :
    (lowerCube y c).pos = ⟨(a : ℚ), ((if b > y then b - 1 else b : Int) : ℚ), (k : ℚ)⟩ := by
  unfold lowerCube
  have hb : cround c.pos.y = b := by rw [h]; exact cround_intCast b
  rw [hb]
  by_cases hgt : b > y
  · rw [if_pos hgt, if_pos hgt]
    simp only [h]
    push_cast; rfl
  · rw [if_neg hgt, if_neg hgt]
    exact h

theorem clear_lattice {g : List Cube} (y : Int) (hg : ∀ c ∈ g, IsLattice c.pos) :
    ∀ c ∈ shiftDown (eraseLayer g y) y, IsLattice c.pos := by
  intro c hc
  unfold shiftDown eraseLayer at hc
  obtain ⟨b, hb, rfl⟩ := List.mem_map.mp hc
  have hbg := (List.mem_filter.mp hb).1
  obtain ⟨a, b2, k, hpos⟩ := (hg b hbg).exists
  rw [lowerCube_mk y b a b2 k hpos]
  exact isLattice_mk _ _ _

theorem clear_noOverlap {g : List Cube} (y : Int) (hg : ∀ c ∈ g, IsLattice c.pos)
    (hn : NoOverlap g) : NoOverlap (shiftDown (eraseLayer g y) y) := by
  unfold shiftDown eraseLayer
  have hsub : NoOverlap (g.filter fun c => !(cround c.pos.y == y)) :=
    List.Nodup.sublist ((List.filter_sublist g).map cell) hn
  apply noOverlap_map _ _ hsub
  intro p hp q hq hpq
  obtain ⟨hpg, hpy⟩ := List.mem_filter.mp hp
  obtain ⟨hqg, hqy⟩ := List.mem_filter.mp hq
  obtain ⟨a, b, k, hpos⟩ := (hg p hpg).exists
  obtain ⟨a2, b2, k2, hpos2⟩ := (hg q hqg).exists
  have hb : cround p.pos.y = b := by rw [hpos]; exact cround_intCast b
  have hb2 : cround q.pos.y = b2 := by rw [hpos2]; exact cround_intCast b2
  simp only [hb, hb2, Bool.not_eq_true', beq_eq_false_iff_ne, ne_eq] at hpy hqy
  unfold cell at hpq ⊢
  rw [lowerCube_mk y p a b k hpos, lowerCube_mk y q a2 b2 k2 hpos2, cellOf_mk, cellOf_mk] at hpq
  rw [hpos, hpos2, cellOf_mk, cellOf_mk]
  simp only [Prod.mk.injEq] at hpq ⊢
  obtain ⟨h1, h2, h3⟩ := hpq
  refine ⟨h1, ?_, h3⟩
  split at h2 <;> split at h2 <;> omega

theorem clearLoop_wellFormed : ∀ (fuel : Nat) (y : Int) (st res : ClearResult),
    clearLoop fuel y st = some res → NoOverlap st.grid → (∀ c ∈ st.grid, IsLattice c.pos) →
    NoOverlap res.grid ∧ ∀ c ∈ res.grid, IsLattice c.pos := by
  intro fuel
  induction fuel with
  | zero => intro y st res h; simp [clearLoop] at h
  | succ f ih =>
    intro y st res h hn hl
    rw [clearLoop] at h
    split at h
    · split at h
      · exact ih _ _ _ h (clear_noOverlap y hl hn) (clear_lattice y hl)
      · exact ih _ _ _ h hn hl
    · simp only [Option.some.injEq] at h
      rw [← h]; exact ⟨hn, hl⟩

/-! ### The lock -/

theorem cells_disjoint_of_free {grid piece : List Cube}
    (h : checkCollision grid ⟨0, 0, 0⟩ piece = false) :
    ∀ c ∈ piece, ∀ l ∈ grid, cell l ≠ cell c := by
  intro c hc l hl heq
  rw [checkCollision_eq_any] at h
  have hc2 := (List.any_eq_false.mp h) c hc
  simp only [add_zero_vec, Bool.or_eq_true, not_or, Bool.not_eq_true] at hc2
  have hh := hc2.2
  unfold hitsLanded at hh
  have hl2 := (List.any_eq_false.mp hh) l hl
  apply hl2
  simp only [cell, cellOf, Prod.mk.injEq] at heq
  simp [heq.1, heq.2.1, heq.2.2]

theorem noOverlap_append {grid piece : List Cube} (hg : NoOverlap grid) (hp : NoOverlap piece)
    (h : checkCollision grid ⟨0, 0, 0⟩ piece = false) : NoOverlap (grid ++ piece) := by
  unfold NoOverlap at hg hp ⊢
  rw [List.map_append]
  apply List.Nodup.append hg hp
  intro k hk1 hk2
  obtain ⟨l, hl, rfl⟩ := List.mem_map.mp hk1
  obtain ⟨c, hc, hcl⟩ := List.mem_map.mp hk2
  exact cells_disjoint_of_free h c hc l hl hcl.symm

theorem mergePiece_wellFormed (fuel : Nat) (s t : State) (h : mergePiece fuel s = some t)
    (hinv : Inv s) (hg : s.gameOver = false) :
    NoOverlap t.grid ∧ (∀ c ∈ t.grid, IsLattice c.pos) ∧ t.currentPiece = s.currentPiece ∧
      t.pieceCenter = s.pieceCenter := by
  have happ : NoOverlap (s.grid ++ s.currentPiece) :=
    noOverlap_append hinv.gridCells hinv.pieceCells (hinv.legal hg)
  have hlat : ∀ c ∈ s.grid ++ s.currentPiece, IsLattice c.pos := by
    intro c hc
    rcases List.mem_append.mp hc with h1 | h1
    · exact hinv.gridLattice c h1
    · exact hinv.pieceLattice c h1
  by_cases hr : ReachesLimit s.currentPiece
  · rw [mergePiece_of_reaches hr, Option.some.injEq] at h
    rw [← h]
    exact ⟨happ, hlat, rfl, rfl⟩
  · rw [mergePiece_of_low hg hr] at h
    cases hcl : clearLines fuel (s.grid ++ s.currentPiece) (wrapInt (s.score + 10)) with
    | none => rw [hcl] at h; simp at h
    | some res =>
      rw [hcl, Option.map_some', Option.some.injEq] at h
      obtain ⟨h1, h2⟩ := clearLoop_wellFormed fuel 0 _ res hcl happ hlat
      rw [← h]
      exact ⟨h1, h2, rfl, rfl⟩

/-! ### Spawning -/

theorem spawn_facts : ∀ t, t < 7 →
    NoOverlap (spawnCubes spawnCenter t (currentMaterial 0)) ∧
    (∀ c ∈ spawnCubes spawnCenter t (currentMaterial 0), IsLattice c.pos) ∧
    OffsetsWithin 2 spawnCenter (spawnCubes spawnCenter t (currentMaterial 0)) := by
  decide!

theorem spawnCenter_lattice : IsLattice spawnCenter := by decide!

theorem inv_spawnPiece (r : Nat) (s : State) (hn : NoOverlap s.grid)
    (hl : ∀ c ∈ s.grid, IsLattice c.pos) : Inv (spawnPiece r s) := by
  have h7 : r % 7 < 7 := Nat.mod_lt _ (by norm_num)
  have hlen : TETROMINOES.length = 7 := rfl
  have hpos : (spawnCubes spawnCenter (r % 7) (currentMaterial 0)).map (fun c => c.pos) =
      (spawnCubes spawnCenter (r % 7) (currentMaterial s.currentMaterialIndex)).map
        (fun c => c.pos) := by
    rw [spawnCubes_pos, spawnCubes_pos]
  have hno := noOverlap_congr_pos hpos (spawn_facts _ h7).1
  have hla := lattice_congr_pos hpos (spawn_facts _ h7).2.1
  have hnear := offsetsWithin_congr_pos hpos (spawn_facts _ h7).2.2
  unfold spawnPiece
  simp only [hlen]
  have hne : spawnCubes spawnCenter (r % 7) (currentMaterial s.currentMaterialIndex) ≠ [] := by
    intro he
    have := spawnCubes_length spawnCenter (r % 7) h7 (currentMaterial s.currentMaterialIndex)
    rw [he] at this
    simp at this
  split
  · exact ⟨hn, hl, hla, spawnCenter_lattice, hno, hne, hnear, fun hgo => by simp at hgo⟩
  · rename_i hfree
    exact ⟨hn, hl, hla, spawnCenter_lattice, hno, hne, hnear, fun _ => by simpa using hfree⟩

theorem inv_lock_then_spawn (fuel r : Nat) (s t : State) (hinv : Inv s)
    (hg : s.gameOver = false)
    (h : (match mergePiece fuel s with
          | none => none
          | some s3 => if !s3.gameOver then some (spawnPiece r s3) else some s3) = some t) :
    Inv t := by
  cases hm : mergePiece fuel s with
  | none => rw [hm] at h; simp at h
  | some s3 =>
    rw [hm] at h
    obtain ⟨h1, h2, h3, h4⟩ := mergePiece_wellFormed fuel s s3 hm hinv hg
    simp only at h
    cases hgo : s3.gameOver with
    | false =>
      rw [hgo] at h
      simp only [Bool.not_false, if_true, Option.some.injEq] at h
      rw [← h]
      exact inv_spawnPiece r s3 h1 h2
    | true =>
      rw [hgo] at h
      simp only [Bool.not_true, Bool.false_eq_true, if_false, Option.some.injEq] at h
      rw [← h]
      refine ⟨h1, h2, ?_, ?_, ?_, ?_, ?_, fun hc => by rw [hgo] at hc; simp at hc⟩
      · rw [h3]; exact hinv.pieceLattice
      · rw [h4]; exact hinv.centerLattice
      · rw [h3]; exact hinv.pieceCells
      · rw [h3]; exact hinv.pieceNonempty
      · rw [h3, h4]; exact hinv.pieceNear

/-! ### The descent of the hard drop -/

theorem hardDropLoop_wellFormed (grid : List Cube) : ∀ (fuel : Nat) (piece : List Cube)
    (center : Vec3) (res : List Cube × Vec3),
    hardDropLoop grid fuel piece center = some res →
    (∀ c ∈ piece, IsLattice c.pos) → IsLattice center → NoOverlap piece → piece ≠ [] →
    checkCollision grid ⟨0, 0, 0⟩ piece = false →
    (∀ c ∈ res.1, IsLattice c.pos) ∧ IsLattice res.2 ∧ NoOverlap res.1 ∧ res.1 ≠ [] ∧
      checkCollision grid ⟨0, 0, 0⟩ res.1 = false := by
  intro fuel
  induction fuel with
  | zero => intro piece center res h; simp [hardDropLoop] at h
  | succ f ih =>
    intro piece center res h hl hc hn hne hfree
    cases hcc : checkCollision grid down piece with
    | true =>
      rw [hardDropLoop_blocked _ _ _ _ hcc, Option.some.injEq] at h
      rw [← h]
      exact ⟨hl, hc, hn, hne, hfree⟩
    | false =>
      rw [hardDropLoop_free _ _ _ _ hcc] at h
      apply ih _ _ _ h
      · rw [lowerPiece_eq_translate]; exact translatePiece_lattice hl down_lattice
      · rw [lowerCenter_eq_add]; exact isLattice_add hc down_lattice
      · rw [lowerPiece_eq_translate]; exact translatePiece_noOverlap hl down_lattice hn
      · exact lowerPiece_ne_nil hne
      · rw [lowerPiece_eq_translate, checkCollision_translate]; exact hcc

theorem hardDropLoop_near (grid : List Cube) (B : ℚ) : ∀ (fuel : Nat) (piece : List Cube)
    (center : Vec3) (res : List Cube × Vec3),
    hardDropLoop grid fuel piece center = some res →
    OffsetsWithin B center piece → OffsetsWithin B res.2 res.1 := by
  intro fuel
  induction fuel with
  | zero => intro piece center res h; simp [hardDropLoop] at h
  | succ f ih =>
    intro piece center res h hoff
    cases hcc : checkCollision grid down piece with
    | true =>
      rw [hardDropLoop_blocked _ _ _ _ hcc, Option.some.injEq] at h
      rw [← h]
      exact hoff
    | false =>
      rw [hardDropLoop_free _ _ _ _ hcc] at h
      apply ih _ _ _ h
      rw [lowerPiece_eq_translate, lowerCenter_eq_add]
      exact translatePiece_near down hoff

/-! ## Every event keeps the invariant -/

theorem inv_move (s : State) (d : Vec3) (hd : IsLattice d) (hinv : Inv s)
    (hfree : checkCollision s.grid d s.currentPiece = false) :
    Inv { s with currentPiece := translatePiece s.currentPiece d,
                 pieceCenter := s.pieceCenter.add d } :=
  ⟨hinv.gridCells, hinv.gridLattice, translatePiece_lattice hinv.pieceLattice hd,
   isLattice_add hinv.centerLattice hd,
   translatePiece_noOverlap hinv.pieceLattice hd hinv.pieceCells,
   by unfold translatePiece; simpa using hinv.pieceNonempty,
   translatePiece_near d hinv.pieceNear,
   fun _ => by rw [checkCollision_translate]; exact hfree⟩

theorem inv_moveBlock (key : Key) (s : State) (hinv : Inv s) : Inv (moveBlock key s) := by
  unfold moveBlock
  simp only
  split
  · rename_i h
    simp only [Bool.and_eq_true, Bool.not_eq_true'] at h
    exact inv_move s _ (moveDirOf_lattice key) hinv h.2
  · exact hinv

theorem moveBlock_gameOver (key : Key) (s : State) : (moveBlock key s).gameOver = s.gameOver := by
  unfold moveBlock
  simp only
  split <;> rfl

theorem inv_hardDropBlock (fuel : Nat) (key : Key) (r : Nat) (s t : State) (hinv : Inv s)
    (hg : s.gameOver = false) (h : hardDropBlock fuel key r s = some t) : Inv t := by
  unfold hardDropBlock at h
  split at h
  · cases hd : hardDropLoop s.grid fuel s.currentPiece s.pieceCenter with
    | none => rw [hd] at h; simp at h
    | some res =>
      obtain ⟨piece, center⟩ := res
      rw [hd] at h
      simp only at h
      obtain ⟨h1, h2, h3, h4, h5⟩ := hardDropLoop_wellFormed s.grid fuel _ _ _ hd
        hinv.pieceLattice hinv.centerLattice hinv.pieceCells hinv.pieceNonempty (hinv.legal hg)
      exact inv_lock_then_spawn fuel r
        ⟨s.grid, piece, center, s.paused, s.gameOver, s.score, s.currentMaterialIndex⟩ t
        ⟨hinv.gridCells, hinv.gridLattice, h1, h2, h3, h4,
          hardDropLoop_near s.grid 2 fuel _ _ _ hd hinv.pieceNear, fun _ => h5⟩ hg h
  · simp only [Option.some.injEq] at h
    rw [← h]; exact hinv

theorem inv_rotate (sgn : Int) (hs : sgn * sgn = 1) (s : State) (hinv : Inv s) :
    Inv (if !checkCollision s.grid ⟨0, 0, 0⟩ (rotatePiece (sgn : ℚ) s.pieceCenter s.currentPiece)
      then { s with currentPiece := rotatePiece (sgn : ℚ) s.pieceCenter s.currentPiece }
      else s) := by
  split
  · rename_i hfree
    simp only [Bool.not_eq_true'] at hfree
    exact ⟨hinv.gridCells, hinv.gridLattice,
      rotatePiece_lattice _ hinv.centerLattice, hinv.centerLattice,
      rotatePiece_noOverlap _ hs hinv.centerLattice hinv.pieceLattice
        (offsetsWithin_mono (by norm_num) hinv.pieceNear) hinv.pieceCells,
      by unfold rotatePiece; simpa using hinv.pieceNonempty,
      rotatePiece_near _ hs (by norm_num) hinv.centerLattice hinv.pieceLattice hinv.pieceNear,
      fun _ => hfree⟩
  · exact hinv

theorem inv_rotateBlock (key : Key) (action : Action) (s : State) (hinv : Inv s) :
    Inv (rotateBlock key action s) := by
  unfold rotateBlock
  by_cases hcond : action = Action.PRESS ∧ (key = Key.Q ∨ key = Key.E)
  · rw [if_pos hcond]
    by_cases hE : key = Key.E
    · simp only [hE, if_true]
      exact inv_rotate 1 (by norm_num) s hinv
    · simp only [hE, if_false]
      exact inv_rotate (-1) (by norm_num) s hinv
  · rw [if_neg hcond]; exact hinv

theorem inv_keyPlaying (fuel : Nat) (key : Key) (action : Action) (r : Nat) (s t : State)
    (hinv : Inv s) (hg : s.gameOver = false) (h : keyPlaying fuel key action r s = some t) :
    Inv t := by
  unfold keyPlaying at h
  cases hd : hardDropBlock fuel key r (moveBlock key s) with
  | none => rw [hd] at h; simp at h
  | some u =>
    rw [hd, Option.map_some', Option.some.injEq] at h
    rw [← h]
    apply inv_rotateBlock
    exact inv_hardDropBlock fuel key r _ u (inv_moveBlock key s hinv)
      (by rw [moveBlock_gameOver]; exact hg) hd

theorem inv_resetBlock (key : Key) (action : Action) (r : Nat) (s : State) (hinv : Inv s) :
    Inv (resetBlock key action r s) := by
  unfold resetBlock
  split
  · apply inv_spawnPiece
    · exact List.nodup_nil
    · intro c hc; simp at hc
  · exact hinv

theorem inv_pauseBlock (key : Key) (action : Action) (s : State) (hinv : Inv s) :
    Inv (pauseBlock key action s) := by
  unfold pauseBlock
  split
  · exact ⟨hinv.gridCells, hinv.gridLattice, hinv.pieceLattice, hinv.centerLattice,
      hinv.pieceCells, hinv.pieceNonempty, hinv.pieceNear, hinv.legal⟩
  · exact hinv

theorem applyMaterial_pos (s : State) :
    (applyMaterialToCurrentPiece s).currentPiece.map (fun c => c.pos) =
      s.currentPiece.map fun c => c.pos := by
  unfold applyMaterialToCurrentPiece
  simp only [List.map_map]
  rfl

theorem inv_applyMaterial (s : State) (hinv : Inv s) : Inv (applyMaterialToCurrentPiece s) := by
  have hpos := (applyMaterial_pos s).symm
  refine ⟨hinv.gridCells, hinv.gridLattice, lattice_congr_pos hpos hinv.pieceLattice,
    hinv.centerLattice, noOverlap_congr_pos hpos hinv.pieceCells,
    by unfold applyMaterialToCurrentPiece; simpa using hinv.pieceNonempty,
    offsetsWithin_congr_pos hpos hinv.pieceNear, ?_⟩
  intro hg
  rw [checkCollision_congr_pos _ _ _ s.currentPiece (applyMaterial_pos s)]
  exact hinv.legal hg

theorem inv_materialBlock (key : Key) (action : Action) (s : State) (hinv : Inv s) :
    Inv (materialBlock key action s) := by
  have h1 : Inv { s with currentMaterialIndex := (s.currentMaterialIndex + 1) % materials.length } :=
    ⟨hinv.gridCells, hinv.gridLattice, hinv.pieceLattice, hinv.centerLattice,
      hinv.pieceCells, hinv.pieceNonempty, hinv.pieceNear, hinv.legal⟩
  unfold materialBlock
  split
  · simp only
    split
    · exact inv_applyMaterial _ h1
    · exact h1
  · exact hinv

theorem inv_key_callback (fuel : Nat) (key : Key) (action : Action) (r : Nat) (s t : State)
    (hinv : Inv s) (h : key_callback fuel key action r s = some t) : Inv t := by
  unfold key_callback at h
  split at h
  · simp only [Option.some.injEq] at h
    rw [← h]; exact hinv
  · have h3 := inv_materialBlock key action _
      (inv_pauseBlock key action _ (inv_resetBlock key action r s hinv))
    simp only at h
    split at h
    · simp only [Option.some.injEq] at h
      rw [← h]; exact h3
    · rename_i hrun
      simp only [Bool.or_eq_true, not_or, Bool.not_eq_true] at hrun
      exact inv_keyPlaying fuel key action r _ t h3 hrun.2 h

theorem inv_tick (fuel r : Nat) (s t : State) (hinv : Inv s) (h : tick fuel r s = some t) :
    Inv t := by
  unfold tick at h
  split at h
  · rename_i hrun
    simp only [Bool.and_eq_true, Bool.not_eq_true'] at hrun
    split at h
    · exact inv_lock_then_spawn fuel r s t hinv hrun.2 h
    · rename_i hfree
      simp only [Bool.not_eq_true] at hfree
      simp only [Option.some.injEq] at h
      rw [← h, lowerPiece_eq_translate, lowerCenter_eq_add]
      exact inv_move s down down_lattice hinv hfree
  · simp only [Option.some.injEq] at h
    rw [← h]; exact hinv

theorem inv_initState (r : Nat) : Inv (initState r) := by
  unfold initState
  apply inv_spawnPiece
  · exact List.nodup_nil
  · intro c hc; simp [initialGlobals] at hc

theorem inv_of_reachable {s : State} (h : Reachable s) : Inv s := by
  induction h with
  | init r => exact inv_initState r
  | next fuel e s t _ hstep ih =>
    cases e with
    | tick r => exact inv_tick fuel r s t ih hstep
    | key key action r => exact inv_key_callback fuel key action r s t ih hstep

/-- C3: in every state reachable from the initial state by gravity ticks and key
events (any keys, any actions, any outcomes of `rand ()`), no two landed cubes
of the grid round to the same cell `(x, y, z)`. -/
theorem reachable_noOverlap (s : State) (h : Reachable s) : NoOverlap s.grid :=
  (inv_of_reachable h).gridCells

/-- C3 on a concrete run: two hard drops from the initial state; the state is
reachable, its grid holds the 8 cubes of the two pieces, and no two of them
share a cell. -/
theorem reachable_noOverlap_witness :
    Reachable afterSecondDrop ∧ afterSecondDrop.grid.length = 8 ∧
      NoOverlap afterSecondDrop.grid :=
  ⟨Reachable.next 40 (Event.key Key.ENTER Action.PRESS 6) afterFirstDrop afterSecondDrop
      (Reachable.next 40 (Event.key Key.ENTER Action.PRESS 3) (initState 0) afterFirstDrop
        (Reachable.init 0) (by decide!)) (by decide!),
   by decide!,
   reachable_noOverlap afterSecondDrop
    (Reachable.next 40 (Event.key Key.ENTER Action.PRESS 6) afterFirstDrop afterSecondDrop
      (Reachable.next 40 (Event.key Key.ENTER Action.PRESS 3) (initState 0) afterFirstDrop
        (Reachable.init 0) (by decide!)) (by decide!))⟩

/-! ## Every event is handled in finitely many steps -/

theorem tick_returns (fuel r : Nat) (s : State)
    (hf : (s.grid ++ s.currentPiece).length + 21 ≤ fuel) : ∃ t, tick fuel r s = some t := by
  unfold tick
  split
  · split
    · obtain ⟨u, hu⟩ := mergePiece_returns s fuel hf
      rw [hu]
      simp only
      split
      · exact ⟨_, rfl⟩
      · exact ⟨_, rfl⟩
    · exact ⟨_, rfl⟩
  · exact ⟨_, rfl⟩

theorem key_callback_returns (fuel : Nat) (key : Key) (action : Action) (r : Nat) (s : State)
    (hne : s.currentPiece ≠ [])
    (hf : dropBound s.currentPiece + (s.grid ++ s.currentPiece).length + 21 ≤ fuel) :
    ∃ t, key_callback fuel key action r s = some t := by
  by_cases hk : key = Key.ENTER
  · subst hk
    by_cases ha : action = Action.RELEASE
    · exact ⟨s, by unfold key_callback; rw [if_pos ha]⟩
    · have hb : materialBlock Key.ENTER action (pauseBlock Key.ENTER action
          (resetBlock Key.ENTER action r s)) = s := by
        simp [materialBlock, pauseBlock, resetBlock]
      by_cases hrun : s.paused = false ∧ s.gameOver = false
      · obtain ⟨hp, hg⟩ := hrun
        obtain ⟨k, hall, _, _⟩ := hardDropLoop_returns s.grid s.currentPiece s.pieceCenter hne
        rw [hardDrop_enter fuel action r s ha hp hg, hall fuel (by omega)]
        obtain ⟨u, hu⟩ := mergePiece_returns
          ⟨s.grid, loweredBy k s.currentPiece, centerLoweredBy k s.pieceCenter,
            s.paused, s.gameOver, s.score, s.currentMaterialIndex⟩ fuel
          (by simp only [List.length_append, loweredBy_length] at hf ⊢; omega)
        simp only
        rw [hu]
        simp only
        split
        · exact ⟨_, rfl⟩
        · exact ⟨_, rfl⟩
      · refine ⟨s, ?_⟩
        unfold key_callback
        rw [if_neg ha]
        simp only [hb]
        rw [if_pos]
        cases hp : s.paused <;> cases hg : s.gameOver <;> simp_all
  · unfold key_callback
    split
    · exact ⟨_, rfl⟩
    · simp only
      split
      · exact ⟨_, rfl⟩
      · unfold keyPlaying hardDropBlock
        rw [if_neg hk]
        exact ⟨_, rfl⟩

/-- From a reachable state every event has a successor state: the loops of the
model return once the fuel passes a bound computed from the state. -/
theorem step_returns {s : State} (h : Reachable s) (e : Event) (fuel : Nat)
    (hf : dropBound s.currentPiece + (s.grid ++ s.currentPiece).length + 21 ≤ fuel) :
    ∃ t, step fuel e s = some t ∧ Reachable t := by
  have hinv := inv_of_reachable h
  have hex : ∃ t, step fuel e s = some t := by
    cases e with
    | tick r => exact tick_returns fuel r s (by omega)
    | key key action r => exact key_callback_returns fuel key action r s hinv.pieceNonempty hf
  obtain ⟨t, ht⟩ := hex
  exact ⟨t, ht, Reachable.next fuel e s t h ht⟩

/-! ## Landed cubes stay below the limit while the game runs -/

theorem cround_lt_seventeen {q : ℚ} (h : q < 14) : cround q < 17 := by
  unfold cround
  split
  · have : ⌊q + 1 / 2⌋ < 17 := by
      rw [Int.floor_lt]; push_cast; linarith
    exact this
  · rename_i hneg
    have h0 : 0 ≤ ⌊-q + 1 / 2⌋ := Int.floor_nonneg.mpr (by linarith)
    omega

theorem forall_pos_congr (P : Vec3 → Prop) {p q : List Cube}
    (h : p.map (fun c => c.pos) = q.map (fun c => c.pos))
    (hp : ∀ c ∈ p, P c.pos) : ∀ c ∈ q, P c.pos := by
  intro c hc
  have hm : c.pos ∈ q.map (fun c => c.pos) := List.mem_map.mpr ⟨c, hc, rfl⟩
  rw [← h] at hm
  obtain ⟨c2, hc2, he⟩ := List.mem_map.mp hm
  rw [← he]; exact hp c2 hc2

theorem spawn_place : ∀ t, t < 7 →
    ∀ c ∈ spawnCubes spawnCenter t (currentMaterial 0),
      outOfField (c.pos.add ⟨0, 0, 0⟩) = false ∧ 17 ≤ cround (c.pos.add ⟨0, 0, 0⟩).y ∧
      (c.pos.y = 17 ∨ c.pos.y = 18) ∧ 3 ≤ c.pos.x ∧ c.pos.x ≤ 6 ∧ c.pos.z = 5 := by
  decide!

theorem spawnCubes_place (t : Nat) (ht : t < 7) (m : PBRMaterial) :
    ∀ c ∈ spawnCubes spawnCenter t m,
      outOfField (c.pos.add ⟨0, 0, 0⟩) = false ∧ 17 ≤ cround (c.pos.add ⟨0, 0, 0⟩).y ∧
      (c.pos.y = 17 ∨ c.pos.y = 18) ∧ 3 ≤ c.pos.x ∧ c.pos.x ≤ 6 ∧ c.pos.z = 5 :=
  forall_pos_congr
    (fun p => outOfField (p.add ⟨0, 0, 0⟩) = false ∧ 17 ≤ cround (p.add ⟨0, 0, 0⟩).y ∧
      (p.y = 17 ∨ p.y = 18) ∧ 3 ≤ p.x ∧ p.x ≤ 6 ∧ p.z = 5)
    (by rw [spawnCubes_pos, spawnCubes_pos]) (spawn_place t ht)

/-- Above a grid whose cubes are all lower than 14, the spawn place is free. -/
theorem spawnCubes_free_above (grid : List Cube) (hg : ∀ c ∈ grid, c.pos.y < 14)
    (t : Nat) (ht : t < 7) (m : PBRMaterial) :
    checkCollision grid ⟨0, 0, 0⟩ (spawnCubes spawnCenter t m) = false := by
  rw [checkCollision_eq_any, List.any_eq_false]
  intro c hc
  obtain ⟨h1, h2, _⟩ := spawnCubes_place t ht m c hc
  simp only [h1, Bool.false_or, Bool.not_eq_true]
  unfold hitsLanded
  rw [List.any_eq_false]
  intro l hl
  have hlow := cround_lt_seventeen (hg l hl)
  have hne : cround (c.pos.add ⟨0, 0, 0⟩).y ≠ cround l.pos.y := by omega
  simp [hne]

theorem spawnPiece_grid (r : Nat) (u : State) : (spawnPiece r u).grid = u.grid := by
  unfold spawnPiece
  simp only
  split <;> rfl

theorem spawnsLegally_of_low (r : Nat) (u : State) (hg : ∀ c ∈ u.grid, c.pos.y < 14) :
    SpawnsLegally r u := by
  have h7 : r % 7 < 7 := Nat.mod_lt _ (by norm_num)
  have hlen : TETROMINOES.length = 7 := rfl
  have hfree := spawnCubes_free_above u.grid hg (r % 7) h7 (currentMaterial u.currentMaterialIndex)
  have hsp : spawnPiece r u =
      { u with currentPiece := spawnCubes spawnCenter (r % 7)
                 (currentMaterial u.currentMaterialIndex),
               pieceCenter := spawnCenter } := by
    unfold spawnPiece
    simp only [hlen, hfree, Bool.false_eq_true, if_false]
  unfold SpawnsLegally
  rw [hsp]
  refine ⟨rfl, rfl, hfree, ?_⟩
  intro c hc
  exact (spawnCubes_place (r % 7) h7 _ c hc).2.2

theorem spawnsLegally_of_belowLimit (r : Nat) (u : State) (hg : BelowLimit u.grid) :
    SpawnsLegally r u :=
  spawnsLegally_of_low r u fun c hc => by
    have := (hg c hc).2
    simp only [GAME_OVER_HEIGHT] at this
    exact_mod_cast this

theorem spawnsLegally_of_empty (r : Nat) (u : State) (hg : u.grid = []) : SpawnsLegally r u :=
  spawnsLegally_of_low r u fun c hc => by rw [hg] at hc; simp at hc

/-! ### The layer clear keeps the cubes in `[0, 14)` -/

theorem clear_belowLimit {g : List Cube} {y : Int} (hy : 0 ≤ y)
    (hl : ∀ c ∈ g, IsLattice c.pos) (hb : BelowLimit g) :
    BelowLimit (shiftDown (eraseLayer g y) y) := by
  intro c hc
  unfold shiftDown eraseLayer at hc
  obtain ⟨b, hbm, rfl⟩ := List.mem_map.mp hc
  have hbg := (List.mem_filter.mp hbm).1
  obtain ⟨h0, h14⟩ := hb b hbg
  obtain ⟨a, b2, k, hpos⟩ := (hl b hbg).exists
  rw [lowerCube_mk y b a b2 k hpos]
  rw [hpos] at h0 h14
  simp only at h0 h14 ⊢
  have h0i : (0 : Int) ≤ b2 := by exact_mod_cast h0
  split
  · rename_i hgt
    constructor
    · have : (0 : Int) ≤ b2 - 1 := by omega
      exact_mod_cast this
    · push_cast; linarith
  · exact ⟨h0, h14⟩

theorem clearLoop_belowLimit : ∀ (fuel : Nat) (y : Int) (st res : ClearResult),
    clearLoop fuel y st = some res → 0 ≤ y → (∀ c ∈ st.grid, IsLattice c.pos) →
    BelowLimit st.grid → BelowLimit res.grid := by
  intro fuel
  induction fuel with
  | zero => intro y st res h; simp [clearLoop] at h
  | succ f ih =>
    intro y st res h hy hl hb
    rw [clearLoop] at h
    split at h
    · split at h
      · rw [Int.sub_add_cancel] at h
        exact ih _ _ _ h hy (clear_lattice y hl) (clear_belowLimit hy hl hb)
      · exact ih _ _ _ h (by omega) hl hb
    · simp only [Option.some.injEq] at h
      rw [← h]; exact hb

/-! ### The lock -/

theorem height_nonneg_of_free {grid piece : List Cube}
    (h : checkCollision grid ⟨0, 0, 0⟩ piece = false) : ∀ c ∈ piece, 0 ≤ c.pos.y := by
  intro c hc
  rw [checkCollision_eq_any, List.any_eq_false] at h
  have hc2 := h c hc
  simp only [add_zero_vec, Bool.or_eq_true, not_or, Bool.not_eq_true] at hc2
  have ho := hc2.1
  unfold outOfField at ho
  simp only [Bool.or_eq_false_iff, decide_eq_false_iff_not, not_lt] at ho
  exact ho.2

theorem belowLimit_append {grid piece : List Cube} (hg : BelowLimit grid)
    (hfree : checkCollision grid ⟨0, 0, 0⟩ piece = false) (hlow : ¬ReachesLimit piece) :
    BelowLimit (grid ++ piece) := by
  intro c hc
  rcases List.mem_append.mp hc with h1 | h1
  · exact hg c h1
  · refine ⟨height_nonneg_of_free hfree c h1, ?_⟩
    by_contra hge
    exact hlow ⟨c, h1, le_of_not_lt hge⟩

/-- The two ways `mergePiece` can return when it is entered with `gameOver` false. -/
theorem mergePiece_cases (fuel : Nat) (s u : State) (hinv : Inv s) (hg : s.gameOver = false)
    (hb : BelowLimit s.grid) (h : mergePiece fuel s = some u) :
    (ReachesLimit s.currentPiece ∧
      u = { s with grid := s.grid ++ s.currentPiece, gameOver := true }) ∨
    (¬ReachesLimit s.currentPiece ∧ u.gameOver = false ∧ BelowLimit u.grid) := by
  by_cases hr : ReachesLimit s.currentPiece
  · left
    rw [mergePiece_of_reaches hr, Option.some.injEq] at h
    exact ⟨hr, h.symm⟩
  · right
    rw [mergePiece_of_low hg hr] at h
    cases hcl : clearLines fuel (s.grid ++ s.currentPiece) (wrapInt (s.score + 10)) with
    | none => rw [hcl] at h; simp at h
    | some res =>
      rw [hcl, Option.map_some', Option.some.injEq] at h
      have hlat : ∀ c ∈ s.grid ++ s.currentPiece, IsLattice c.pos := by
        intro c hc
        rcases List.mem_append.mp hc with h1 | h1
        · exact hinv.gridLattice c h1
        · exact hinv.pieceLattice c h1
      have hres := clearLoop_belowLimit fuel 0 _ res hcl (le_refl _) hlat
        (belowLimit_append hb (hinv.legal hg) hr)
      rw [← h]
      exact ⟨hr, hg, hres⟩

/-! ### Blocks that touch neither the grid nor `gameOver` -/

theorem moveBlock_grid (key : Key) (s : State) : (moveBlock key s).grid = s.grid := by
  unfold moveBlock
  simp only
  split <;> rfl

theorem ite_piece_frame (c : Prop) [Decidable c] (s : State) (p : List Cube) :
    (if c then { s with currentPiece := p } else s).grid = s.grid ∧
      (if c then { s with currentPiece := p } else s).gameOver = s.gameOver := by
  split <;> exact ⟨rfl, rfl⟩

theorem rotateBlock_frame (key : Key) (action : Action) (s : State) :
    (rotateBlock key action s).grid = s.grid ∧
      (rotateBlock key action s).gameOver = s.gameOver := by
  unfold rotateBlock
  by_cases hcond : action = Action.PRESS ∧ (key = Key.Q ∨ key = Key.E)
  · rw [if_pos hcond]
    exact ite_piece_frame _ s _
  · rw [if_neg hcond]
    exact ⟨rfl, rfl⟩

theorem pauseBlock_frame (key : Key) (action : Action) (s : State) :
    (pauseBlock key action s).grid = s.grid ∧
      (pauseBlock key action s).gameOver = s.gameOver := by
  unfold pauseBlock
  split <;> exact ⟨rfl, rfl⟩

theorem materialBlock_frame (key : Key) (action : Action) (s : State) :
    (materialBlock key action s).grid = s.grid ∧
      (materialBlock key action s).gameOver = s.gameOver := by
  unfold materialBlock
  split
  · simp only
    split <;> exact ⟨rfl, rfl⟩
  · exact ⟨rfl, rfl⟩

/-- After the reset block `gameOver` is false (if it was before) and the grid is
still below the limit. -/
theorem resetBlock_low (key : Key) (action : Action) (r : Nat) (s : State)
    (hg : s.gameOver = false) (hb : BelowLimit s.grid) :
    (resetBlock key action r s).gameOver = false ∧
      BelowLimit (resetBlock key action r s).grid := by
  unfold resetBlock
  split
  · obtain ⟨h1, h2, _⟩ := spawnsLegally_of_empty r
      { s with grid := [], score := 0, gameOver := false, paused := false } rfl
    rw [h1, h2]
    exact ⟨rfl, fun c hc => by simp at hc⟩
  · exact ⟨hg, hb⟩

theorem resetBlock_low_of_over (key : Key) (action : Action) (r : Nat) (s : State)
    (h : (resetBlock key action r s).gameOver = false) (hs : s.gameOver = true) :
    BelowLimit (resetBlock key action r s).grid := by
  unfold resetBlock at h ⊢
  split
  · rw [spawnPiece_grid]
    exact fun c hc => by simp at hc
  · rename_i hno
    rw [if_neg hno, hs] at h
    simp at h

/-! ### Lock followed by spawn -/

theorem lock_then_spawn_cases (fuel r : Nat) (s t : State) (hinv : Inv s)
    (hg : s.gameOver = false) (hb : BelowLimit s.grid)
    (h : (match mergePiece fuel s with
          | none => none
          | some s3 => if !s3.gameOver then some (spawnPiece r s3) else some s3) = some t) :
    (t.gameOver = true ∧ ReachesLimit s.currentPiece ∧
      t = { s with grid := s.grid ++ s.currentPiece, gameOver := true }) ∨
    (t.gameOver = false ∧ BelowLimit t.grid) := by
  cases hm : mergePiece fuel s with
  | none => rw [hm] at h; simp at h
  | some u =>
    rw [hm] at h
    simp only at h
    rcases mergePiece_cases fuel s u hinv hg hb hm with ⟨hr, hu⟩ | ⟨_, hug, hub⟩
    · left
      have hgo : u.gameOver = true := by rw [hu]
      rw [hgo] at h
      simp only [Bool.not_true, Bool.false_eq_true, if_false, Option.some.injEq] at h
      rw [← h]
      exact ⟨hgo, hr, hu⟩
    · right
      rw [hug] at h
      simp only [Bool.not_false, if_true, Option.some.injEq] at h
      obtain ⟨h1, h2, _⟩ := spawnsLegally_of_belowLimit r u hub
      rw [← h, h1, h2]
      exact ⟨hug, hub⟩

/-- The state in which the hard drop calls `mergePiece` satisfies the invariant. -/
theorem inv_dropped (fuel : Nat) (s : State) (piece : List Cube) (center : Vec3)
    (hinv : Inv s) (hg : s.gameOver = false)
    (hd : hardDropLoop s.grid fuel s.currentPiece s.pieceCenter = some (piece, center)) :
    Inv ⟨s.grid, piece, center, s.paused, s.gameOver, s.score, s.currentMaterialIndex⟩ := by
  obtain ⟨h1, h2, h3, h4, h5⟩ := hardDropLoop_wellFormed s.grid fuel _ _ _ hd
    hinv.pieceLattice hinv.centerLattice hinv.pieceCells hinv.pieceNonempty (hinv.legal hg)
  exact ⟨hinv.gridCells, hinv.gridLattice, h1, h2, h3, h4,
    hardDropLoop_near s.grid 2 fuel _ _ _ hd hinv.pieceNear, fun _ => h5⟩

/-! ### One event -/

theorem tick_cases (fuel r : Nat) (s t : State) (hinv : Inv s) (hg : s.gameOver = false)
    (hb : BelowLimit s.grid) (h : tick fuel r s = some t) :
    (t.gameOver = true ∧ OverflowLock fuel (Event.tick r) s t) ∨
    (t.gameOver = false ∧ BelowLimit t.grid) := by
  unfold tick at h
  split at h
  · rename_i hrun
    simp only [Bool.and_eq_true, Bool.not_eq_true'] at hrun
    split at h
    · rename_i hblocked
      rcases lock_then_spawn_cases fuel r s t hinv hg hb h with ⟨h1, h2, h3⟩ | h4
      · left
        exact ⟨h1, s.currentPiece, s.pieceCenter, h2, h3,
          Or.inl ⟨r, rfl, hrun.1, hblocked, rfl, rfl⟩⟩
      · right; exact h4
    · simp only [Option.some.injEq] at h
      right
      rw [← h]
      exact ⟨hg, hb⟩
  · simp only [Option.some.injEq] at h
    right
    rw [← h]
    exact ⟨hg, hb⟩

theorem key_enter_idle (fuel : Nat) (action : Action) (r : Nat) (s : State)
    (h : action = Action.RELEASE ∨ s.paused = true ∨ s.gameOver = true) :
    key_callback fuel Key.ENTER action r s = some s := by
  have hb : materialBlock Key.ENTER action (pauseBlock Key.ENTER action
      (resetBlock Key.ENTER action r s)) = s := by
    simp [materialBlock, pauseBlock, resetBlock]
  unfold key_callback
  by_cases ha : action = Action.RELEASE
  · rw [if_pos ha]
  · rw [if_neg ha]
    simp only [hb]
    rw [if_pos]
    rcases h with h | h | h
    · exact absurd h ha
    · simp [h]
    · simp [h]

theorem key_enter_cases (fuel : Nat) (action : Action) (r : Nat) (s t : State) (hinv : Inv s)
    (hg : s.gameOver = false) (hb : BelowLimit s.grid)
    (h : key_callback fuel Key.ENTER action r s = some t) :
    (t.gameOver = true ∧ OverflowLock fuel (Event.key Key.ENTER action r) s t) ∨
    (t.gameOver = false ∧ BelowLimit t.grid) := by
  by_cases hidle : action = Action.RELEASE ∨ s.paused = true
  · rw [key_enter_idle fuel action r s (by tauto), Option.some.injEq] at h
    right
    rw [← h]
    exact ⟨hg, hb⟩
  · have ha : action ≠ Action.RELEASE := fun hh => hidle (Or.inl hh)
    have hp : s.paused = false := by
      cases hpp : s.paused with
      | false => rfl
      | true => exact absurd (Or.inr hpp) hidle
    rw [hardDrop_enter fuel action r s ha hp hg] at h
    cases hd : hardDropLoop s.grid fuel s.currentPiece s.pieceCenter with
    | none => rw [hd] at h; simp at h
    | some res =>
      obtain ⟨piece, center⟩ := res
      rw [hd] at h
      simp only at h
      rcases lock_then_spawn_cases fuel r
        ⟨s.grid, piece, center, s.paused, s.gameOver, s.score, s.currentMaterialIndex⟩ t
        (inv_dropped fuel s piece center hinv hg hd) hg hb h with ⟨h1, h2, h3⟩ | h4
      · left
        exact ⟨h1, piece, center, h2, h3, Or.inr ⟨action, r, rfl, ha, hp, hd⟩⟩
      · right; exact h4

theorem key_other_cases (fuel : Nat) (key : Key) (action : Action) (r : Nat) (s t : State)
    (hk : key ≠ Key.ENTER) (hg : s.gameOver = false) (hb : BelowLimit s.grid)
    (h : key_callback fuel key action r s = some t) :
    t.gameOver = false ∧ BelowLimit t.grid := by
  unfold key_callback at h
  split at h
  · simp only [Option.some.injEq] at h
    rw [← h]; exact ⟨hg, hb⟩
  · obtain ⟨hr1, hr2⟩ := resetBlock_low key action r s hg hb
    obtain ⟨hp1, hp2⟩ := pauseBlock_frame key action (resetBlock key action r s)
    obtain ⟨hm1, hm2⟩ := materialBlock_frame key action
      (pauseBlock key action (resetBlock key action r s))
    have h3g : (materialBlock key action (pauseBlock key action
        (resetBlock key action r s))).gameOver = false := by rw [hm2, hp2, hr1]
    have h3b : BelowLimit (materialBlock key action (pauseBlock key action
        (resetBlock key action r s))).grid := by rw [hm1, hp1]; exact hr2
    simp only at h
    split at h
    · simp only [Option.some.injEq] at h
      rw [← h]; exact ⟨h3g, h3b⟩
    · unfold keyPlaying hardDropBlock at h
      rw [if_neg hk, Option.map_some', Option.some.injEq] at h
      obtain ⟨hq1, hq2⟩ := rotateBlock_frame key action (moveBlock key
        (materialBlock key action (pauseBlock key action (resetBlock key action r s))))
      rw [← h, hq1, hq2, moveBlock_grid, moveBlock_gameOver]
      exact ⟨h3g, h3b⟩

theorem step_cases (fuel : Nat) (e : Event) (s t : State) (hinv : Inv s)
    (hg : s.gameOver = false) (hb : BelowLimit s.grid) (h : step fuel e s = some t) :
    (t.gameOver = true ∧ OverflowLock fuel e s t) ∨ (t.gameOver = false ∧ BelowLimit t.grid) := by
  cases e with
  | tick r => exact tick_cases fuel r s t hinv hg hb h
  | key key action r =>
    by_cases hk : key = Key.ENTER
    · subst hk
      exact key_enter_cases fuel action r s t hinv hg hb h
    · right
      exact key_other_cases fuel key action r s t hk hg hb h

/-- From a finished game, the only way back to `gameOver = false` is the reset,
which empties the grid. -/
theorem step_from_over (fuel : Nat) (e : Event) (s t : State) (hs : s.gameOver = true)
    (h : step fuel e s = some t) (ht : t.gameOver = false) : BelowLimit t.grid := by
  cases e with
  | tick r =>
    unfold step tick at h
    simp only [hs, Bool.not_true, Bool.and_false, Bool.false_eq_true, if_false,
      Option.some.injEq] at h
    rw [← h, hs] at ht
    simp at ht
  | key key action r =>
    unfold step key_callback at h
    simp only at h
    split at h
    · simp only [Option.some.injEq] at h
      rw [← h, hs] at ht
      simp at ht
    · obtain ⟨hp1, hp2⟩ := pauseBlock_frame key action (resetBlock key action r s)
      obtain ⟨hm1, hm2⟩ := materialBlock_frame key action
        (pauseBlock key action (resetBlock key action r s))
      split at h
      · simp only [Option.some.injEq] at h
        rw [← h] at ht ⊢
        rw [hm2, hp2] at ht
        rw [hm1, hp1]
        exact resetBlock_low_of_over key action r s ht hs
      · rename_i hrun
        simp only [Bool.or_eq_true, not_or, Bool.not_eq_true] at hrun
        have h3g := hrun.2
        rw [hm2, hp2] at h3g
        have h3b := resetBlock_low_of_over key action r s h3g hs
        have hkey : key = Key.R ∧ action = Action.PRESS := by
          by_contra hno
          have hrs : resetBlock key action r s = s := by unfold resetBlock; rw [if_neg hno]
          rw [hrs, hs] at h3g
          simp at h3g
        obtain ⟨rfl, rfl⟩ := hkey
        rw [keyPlaying_R, Option.some.injEq] at h
        rw [← h, hm1, hp1]
        exact h3b

/-! ### Reachable states -/

theorem low_of_reachable {s : State} (h : Reachable s) :
    s.gameOver = false → BelowLimit s.grid := by
  induction h with
  | init r =>
    intro _
    unfold initState
    rw [spawnPiece_grid]
    exact fun c hc => by simp [initialGlobals] at hc
  | next fuel e s t hs hstep ih =>
    intro ht
    cases hg : s.gameOver with
    | true => exact step_from_over fuel e s t hg hstep ht
    | false =>
      rcases step_cases fuel e s t (inv_of_reachable hs) hg (ih hg) hstep with ⟨h1, _⟩ | ⟨_, h2⟩
      · rw [h1] at ht; simp at ht
      · exact h2

/-- C11: in every reachable state with `gameOver` false every landed cube has
`0 <= y < 14`.  Consequently each call of `spawnPiece` of the program (at start,
in the reset, and after a lock by a tick or by a hard drop that left `gameOver`
false) leaves `gameOver` as it is and places its piece, cubes at `y` 17 or 18,
`x` in 3..6, `z = 5`, where `checkCollision` accepts it; and an event that takes
`gameOver` from false to true is a lock of a piece with a cube at `y >= 14`. -/
theorem reachable_below_limit (s : State) (h : Reachable s) :
    (s.gameOver = false → BelowLimit s.grid) ∧
    (∀ r, SpawnsLegally r initialGlobals) ∧
    (∀ r, SpawnsLegally r
      { s with grid := [], score := 0, gameOver := false, paused := false }) ∧
    (∀ fuel r u, s.gameOver = false → mergePiece fuel s = some u → u.gameOver = false →
      SpawnsLegally r u) ∧
    (∀ fuel r piece center u, s.gameOver = false →
      hardDropLoop s.grid fuel s.currentPiece s.pieceCenter = some (piece, center) →
      mergePiece fuel { s with currentPiece := piece, pieceCenter := center } = some u →
      u.gameOver = false → SpawnsLegally r u) ∧
    (∀ fuel e t, step fuel e s = some t → s.gameOver = false → t.gameOver = true →
      OverflowLock fuel e s t) := by
  have hinv := inv_of_reachable h
  have hlow := low_of_reachable h
  refine ⟨hlow, fun r => spawnsLegally_of_empty r _ rfl, fun r => spawnsLegally_of_empty r _ rfl,
    ?_, ?_, ?_⟩
  · intro fuel r u hg hm hu
    rcases mergePiece_cases fuel s u hinv hg (hlow hg) hm with ⟨_, h2⟩ | ⟨_, _, h3⟩
    · rw [h2] at hu; simp at hu
    · exact spawnsLegally_of_belowLimit r u h3
  · intro fuel r piece center u hg hd hm hu
    rcases mergePiece_cases fuel
      ⟨s.grid, piece, center, s.paused, s.gameOver, s.score, s.currentMaterialIndex⟩ u
      (inv_dropped fuel s piece center hinv hg hd) hg (hlow hg) hm with ⟨_, h2⟩ | ⟨_, _, h3⟩
    · rw [h2] at hu; simp at hu
    · exact spawnsLegally_of_belowLimit r u h3
  · intro fuel e t hstep hg ht
    rcases step_cases fuel e s t hinv hg (hlow hg) hstep with ⟨_, h2⟩ | ⟨h3, _⟩
    · exact h2
    · rw [h3] at ht; simp at ht

theorem reachable_squareRun : ∀ (n : Nat) (t : State), squareRun n = some t → Reachable t := by
  intro n
  induction n with
  | zero =>
    intro t h
    simp only [squareRun, Option.some.injEq] at h
    rw [← h]; exact Reachable.init 6
  | succ k ih =>
    intro t h
    simp only [squareRun] at h
    cases hk : squareRun k with
    | none => rw [hk] at h; simp at h
    | some u =>
      rw [hk, Option.some_bind] at h
      exact Reachable.next 60 (Event.key Key.ENTER Action.PRESS 6) u t (ih u hk) h

theorem squareRun_succ (n : Nat) :
    squareRun (n + 1) = (squareRun n).bind (key_callback 60 Key.ENTER Action.PRESS 6) := rfl

/-- One evaluation of the run: seven drops, then the eighth. -/
theorem squareRun_eval :
    (squareRun 7).map (fun t => (t.gameOver, t.grid.length,
        (key_callback 60 Key.ENTER Action.PRESS 6 t).map fun u => u.gameOver)) =
      some (false, 28, some true) := by
  decide!

theorem squareDrops_run :
    squareRun 7 = some (squareDrops 7) ∧
    (squareDrops 7).gameOver = false ∧ (squareDrops 7).grid.length = 28 ∧
    (squareDrops 8).gameOver = true ∧
    step 60 (Event.key Key.ENTER Action.PRESS 6) (squareDrops 7) = some (squareDrops 8) := by
  have hE := squareRun_eval
  cases h7 : squareRun 7 with
  | none => rw [h7] at hE; simp at hE
  | some t7 =>
    rw [h7, Option.map_some', Option.some.injEq, Prod.mk.injEq, Prod.mk.injEq] at hE
    obtain ⟨hg, hlen, hk⟩ := hE
    cases h8 : key_callback 60 Key.ENTER Action.PRESS 6 t7 with
    | none => rw [h8] at hk; simp at hk
    | some t8 =>
      rw [h8, Option.map_some', Option.some.injEq] at hk
      have e7 : squareDrops 7 = t7 := by unfold squareDrops; rw [h7]; rfl
      have e8 : squareDrops 8 = t8 := by
        unfold squareDrops
        rw [squareRun_succ 7, h7, Option.some_bind, h8]; rfl
      rw [e7, e8]
      exact ⟨rfl, hg, hlen, hk, h8⟩

/-- C11 on a concrete run: seven square pieces dropped on one another give a
reachable running game whose 28 landed cubes are all below the limit; the eighth
drop ends the game, and it does so by locking a piece at heights 14 and 15. -/
theorem reachable_below_limit_witness :
    Reachable (squareDrops 7) ∧ (squareDrops 7).gameOver = false ∧
    (squareDrops 7).grid.length = 28 ∧ BelowLimit (squareDrops 7).grid ∧
    (squareDrops 8).gameOver = true ∧
    OverflowLock 60 (Event.key Key.ENTER Action.PRESS 6) (squareDrops 7) (squareDrops 8) :=
  ⟨reachable_squareRun 7 _ squareDrops_run.1, squareDrops_run.2.1, squareDrops_run.2.2.1,
   (reachable_below_limit (squareDrops 7) (reachable_squareRun 7 _ squareDrops_run.1)).1
     squareDrops_run.2.1,
   squareDrops_run.2.2.2.1,
   (reachable_below_limit (squareDrops 7)
     (reachable_squareRun 7 _ squareDrops_run.1)).2.2.2.2.2 60
     (Event.key Key.ENTER Action.PRESS 6) (squareDrops 8) squareDrops_run.2.2.2.2
     squareDrops_run.2.1 squareDrops_run.2.2.2.1⟩

end Tetris3D
